import Mathlib

/-!
Verification of the abyssal entity/component core and the hierarchy /
transform-propagation logic built on top of it.

Scalars: the source computes over `f32`; here every scalar is modelled as a
rational number (`ℚ`), so that all matrix arithmetic is exact and executable.

The ECS substrate itself (`src/ecs.rs`, generating `Context`, `spawn`,
`destroy`, `add_components`, `remove_components`, `get_component`,
`get_component_mut`, `query_entities`, `query_nth`) is not present in the
sources; those definitions are modelled from the spec, as their doc comments
note.  All tree / transform / camera operations are translated from
`src/context/tree.rs`, `src/context/transform.rs`, `src/context/camera.rs`
and `src/run.rs`.

The unbounded recursion of `query_global_transform` and the unbounded loops
of `is_descendant_of` / `query_descendents` are embedded with an explicit
fuel parameter returning `none` on fuel exhaustion; acyclicity of the parent
graph is expressed by a rank function that strictly decreases along parent
edges.
-/

namespace Abyssal

/-- `f32` value of π (0x40490FDB), used by `to_radians`; floats are modelled
as rationals. -/
def pi32 : ℚ := 13176795 / 4194304

/-- Models `f32::to_radians`. -/
def toRadians (x : ℚ) : ℚ := x * pi32 / 180

/-- Models `nalgebra_glm::Vec2`. -/
structure Vec2 where
  x : ℚ
  y : ℚ
deriving DecidableEq, Repr

/-- Models `nalgebra_glm::Vec3`. -/
structure Vec3 where
  x : ℚ
  y : ℚ
  z : ℚ
deriving DecidableEq, Repr

/-- Models `nalgebra_glm::Vec4`. -/
structure Vec4 where
  x : ℚ
  y : ℚ
  z : ℚ
  w : ℚ
deriving DecidableEq, Repr

namespace Vec3

def add (a b : Vec3) : Vec3 := ⟨a.x + b.x, a.y + b.y, a.z + b.z⟩

def sub (a b : Vec3) : Vec3 := ⟨a.x - b.x, a.y - b.y, a.z - b.z⟩

def smul (a : Vec3) (s : ℚ) : Vec3 := ⟨a.x * s, a.y * s, a.z * s⟩

def zero : Vec3 := ⟨0, 0, 0⟩

def one : Vec3 := ⟨1, 1, 1⟩

instance : Add Vec3 := ⟨add⟩
instance : Sub Vec3 := ⟨sub⟩

end Vec3

/-- Models `nalgebra_glm::Quat` (w is the scalar part). -/
structure Quat where
  w : ℚ
  x : ℚ
  y : ℚ
  z : ℚ
deriving DecidableEq, Repr

namespace Quat

/-- The identity quaternion, `nalgebra_glm::Quat::identity()`. -/
def identity : Quat := ⟨1, 0, 0, 0⟩

/-- Squared norm of a quaternion. -/
def normSq (q : Quat) : ℚ := q.w * q.w + q.x * q.x + q.y * q.y + q.z * q.z

/-- Hamilton product, models quaternion multiplication in `nalgebra_glm`. -/
def mul (a b : Quat) : Quat :=
  ⟨a.w * b.w - a.x * b.x - a.y * b.y - a.z * b.z,
   a.w * b.x + a.x * b.w + a.y * b.z - a.z * b.y,
   a.w * b.y - a.x * b.z + a.y * b.w + a.z * b.x,
   a.w * b.z + a.x * b.y - a.y * b.x + a.z * b.w⟩

instance : Mul Quat := ⟨mul⟩

end Quat

/-- Models `nalgebra_glm::Mat4`, a 4×4 matrix; entry `mRC` is row R, column C. -/
structure Mat4 where
  m00 : ℚ
  m01 : ℚ
  m02 : ℚ
  m03 : ℚ
  m10 : ℚ
  m11 : ℚ
  m12 : ℚ
  m13 : ℚ
  m20 : ℚ
  m21 : ℚ
  m22 : ℚ
  m23 : ℚ
  m30 : ℚ
  m31 : ℚ
  m32 : ℚ
  m33 : ℚ
deriving DecidableEq, Repr

namespace Mat4

/-- `nalgebra_glm::Mat4::identity()`. -/
def identity : Mat4 :=
  ⟨1, 0, 0, 0,
   0, 1, 0, 0,
   0, 0, 1, 0,
   0, 0, 0, 1⟩

/-- The zero matrix; `nalgebra` derives `Default` for matrices as all zeros. -/
def zero : Mat4 :=
  ⟨0, 0, 0, 0,
   0, 0, 0, 0,
   0, 0, 0, 0,
   0, 0, 0, 0⟩

/-- Standard 4×4 matrix multiplication. -/
def mul (a b : Mat4) : Mat4 :=
  ⟨a.m00 * b.m00 + a.m01 * b.m10 + a.m02 * b.m20 + a.m03 * b.m30,
   a.m00 * b.m01 + a.m01 * b.m11 + a.m02 * b.m21 + a.m03 * b.m31,
   a.m00 * b.m02 + a.m01 * b.m12 + a.m02 * b.m22 + a.m03 * b.m32,
   a.m00 * b.m03 + a.m01 * b.m13 + a.m02 * b.m23 + a.m03 * b.m33,
   a.m10 * b.m00 + a.m11 * b.m10 + a.m12 * b.m20 + a.m13 * b.m30,
   a.m10 * b.m01 + a.m11 * b.m11 + a.m12 * b.m21 + a.m13 * b.m31,
   a.m10 * b.m02 + a.m11 * b.m12 + a.m12 * b.m22 + a.m13 * b.m32,
   a.m10 * b.m03 + a.m11 * b.m13 + a.m12 * b.m23 + a.m13 * b.m33,
   a.m20 * b.m00 + a.m21 * b.m10 + a.m22 * b.m20 + a.m23 * b.m30,
   a.m20 * b.m01 + a.m21 * b.m11 + a.m22 * b.m21 + a.m23 * b.m31,
   a.m20 * b.m02 + a.m21 * b.m12 + a.m22 * b.m22 + a.m23 * b.m32,
   a.m20 * b.m03 + a.m21 * b.m13 + a.m22 * b.m23 + a.m23 * b.m33,
   a.m30 * b.m00 + a.m31 * b.m10 + a.m32 * b.m20 + a.m33 * b.m30,
   a.m30 * b.m01 + a.m31 * b.m11 + a.m32 * b.m21 + a.m33 * b.m31,
   a.m30 * b.m02 + a.m31 * b.m12 + a.m32 * b.m22 + a.m33 * b.m32,
   a.m30 * b.m03 + a.m31 * b.m13 + a.m32 * b.m23 + a.m33 * b.m33⟩

instance : Mul Mat4 := ⟨mul⟩

end Mat4

theorem mat4_mul_def (a b : Mat4) : a * b = Mat4.mul a b := rfl

/-- `nalgebra_glm::translation(&t)`: identity with `t` in the last column. -/
def translationMat (t : Vec3) : Mat4 :=
  ⟨1, 0, 0, t.x,
   0, 1, 0, t.y,
   0, 0, 1, t.z,
   0, 0, 0, 1⟩

/-- `nalgebra_glm::scaling(&s)`: diagonal scale matrix. -/
def scalingMat (s : Vec3) : Mat4 :=
  ⟨s.x, 0, 0, 0,
   0, s.y, 0, 0,
   0, 0, s.z, 0,
   0, 0, 0, 1⟩

/-- `nalgebra_glm::quat_to_mat4(&q.normalize())`: the rotation matrix of the
normalized quaternion.  For the unit quaternion `q/‖q‖` every entry of the
standard quaternion-to-matrix formula is quadratic in the components, so
dividing each quadratic term by `‖q‖²` gives an exact rational formula with
no square root. -/
def quatToMat4Normalized (q : Quat) : Mat4 :=
  let n := q.normSq
  ⟨1 - 2 * (q.y * q.y + q.z * q.z) / n, 2 * (q.x * q.y - q.z * q.w) / n,
     2 * (q.x * q.z + q.y * q.w) / n, 0,
   2 * (q.x * q.y + q.z * q.w) / n, 1 - 2 * (q.x * q.x + q.z * q.z) / n,
     2 * (q.y * q.z - q.x * q.w) / n, 0,
   2 * (q.x * q.z - q.y * q.w) / n, 2 * (q.y * q.z + q.x * q.w) / n,
     1 - 2 * (q.x * q.x + q.y * q.y) / n, 0,
   0, 0, 0, 1⟩

/-- Entity identifiers; an opaque comparable token, modelled as `Nat`. -/
abbrev EntityId := Nat

/-- Component masks: a bitset with one reserved bit per component kind,
modelled as `Nat` with its bitwise operations. -/
abbrev Mask := Nat

/-- `LocalTransform` from `src/context/transform.rs`: translation, rotation
(quaternion) and scale. -/
structure LocalTransform where
  translation : Vec3
  rotation : Quat
  scale : Vec3
deriving DecidableEq, Repr

namespace LocalTransform

/-- The `Default` impl in `src/context/transform.rs`: zero translation,
identity rotation, unit scale. -/
def default : LocalTransform := ⟨Vec3.zero, Quat.identity, Vec3.one⟩

/-- `LocalTransform::as_matrix`: `translation(t) * quat_to_mat4(r.normalize()) * scaling(s)`. -/
def as_matrix (t : LocalTransform) : Mat4 :=
  translationMat t.translation * quatToMat4Normalized t.rotation * scalingMat t.scale

end LocalTransform

/-- `GlobalTransform` from `src/context/transform.rs`: a single 4×4 matrix. -/
structure GlobalTransform where
  mat : Mat4
deriving DecidableEq, Repr

/-- Derived `Default` for `GlobalTransform`: `nalgebra` matrices default to
all zeros. -/
def GlobalTransform.default : GlobalTransform := ⟨Mat4.zero⟩

/-- `PerspectiveCamera` from `src/context/camera.rs`. -/
structure PerspectiveCamera where
  aspect_ratio : Option ℚ
  y_fov_rad : ℚ
  z_far : Option ℚ
  z_near : ℚ
deriving DecidableEq, Repr

/-- The `Default` impl for `PerspectiveCamera`. -/
def PerspectiveCamera.default : PerspectiveCamera :=
  ⟨none, toRadians 90, none, 1 / 100⟩

/-- `OrthographicCamera` from `src/context/camera.rs`. -/
structure OrthographicCamera where
  x_mag : ℚ
  y_mag : ℚ
  z_far : ℚ
  z_near : ℚ
deriving DecidableEq, Repr

/-- `Projection` from `src/context/camera.rs`. -/
inductive Projection where
  | perspective (c : PerspectiveCamera)
  | orthographic (c : OrthographicCamera)
deriving DecidableEq, Repr

/-- `Camera` from `src/context/camera.rs`. -/
structure Camera where
  projection : Projection
  fov : ℚ
deriving DecidableEq, Repr

/-- The `Default` impl for `Camera`: default perspective projection, fov 45. -/
def Camera.default : Camera := ⟨Projection.perspective PerspectiveCamera.default, 45⟩

/-- `Line` from `src/context/paint.rs`. -/
structure Line where
  start : Vec3
  stop : Vec3
  color : Vec4
deriving DecidableEq, Repr

/-- `Lines` component: a list of line segments. -/
structure Lines where
  lines : List Line
deriving DecidableEq, Repr

def Lines.default : Lines := ⟨[]⟩

/-- `Quad` from `src/context/paint.rs`. -/
structure Quad where
  size : Vec2
  offset : Vec3
  color : Vec4
deriving DecidableEq, Repr

/-- `Quads` component: a list of quads. -/
structure Quads where
  quads : List Quad
deriving DecidableEq, Repr

def Quads.default : Quads := ⟨[]⟩

/-- `Name` component from `src/context/tree.rs`. -/
structure Name where
  name : String
deriving DecidableEq, Repr

def Name.default : Name := ⟨""⟩

/-- `Parent` component from `src/context/tree.rs`: holds the owning entity's
parent id. -/
structure Parent where
  parent : EntityId
deriving DecidableEq, Repr

def Parent.default : Parent := ⟨(0 : EntityId)⟩

/-- Key codes used by the embedded systems (`winit::keyboard::KeyCode`). -/
inductive KeyCode where
  | keyW
  | keyA
  | keyS
  | keyD
  | space
  | escape
deriving DecidableEq, Repr

/-- Modelled from the spec: the keyboard part of the input-state resource;
`is_key_pressed` is membership in the set of currently pressed keys. -/
structure Keyboard where
  pressed : List KeyCode
deriving DecidableEq, Repr

def Keyboard.is_key_pressed (kb : Keyboard) (k : KeyCode) : Bool :=
  kb.pressed.contains k

/-- Mouse button state flags consumed by `look_camera_system`
(`input::MouseState::RIGHT_CLICKED` / `MIDDLE_CLICKED`). -/
structure MouseState where
  right_clicked : Bool
  middle_clicked : Bool
deriving DecidableEq, Repr

/-- Modelled from the spec: the mouse part of the input-state resource. -/
structure Mouse where
  state : MouseState
  position_delta : Vec2
deriving DecidableEq, Repr

/-- Modelled from the spec: the input-state singleton resource. -/
structure Input where
  keyboard : Keyboard
  mouse : Mouse
deriving DecidableEq, Repr

def Input.default : Input := ⟨⟨[]⟩, ⟨⟨false, false⟩, ⟨0, 0⟩⟩⟩

/-- The window singleton resource (`src/context/window.rs`); only the fields
read by the embedded systems are carried. -/
structure Window where
  should_exit : Bool
  delta_time : ℚ
deriving DecidableEq, Repr

def Window.default : Window := ⟨false, 0⟩

/-- The renderer held by the graphics resource; its internals (GPU handles)
are irrelevant to the claims and are not modelled. -/
structure Renderer where
  mk' ::
deriving DecidableEq, Repr

/-- The graphics singleton resource (`src/context/graphics.rs`). -/
structure Graphics where
  renderer : Option Renderer
  viewport_size : Nat × Nat
deriving DecidableEq, Repr

def Graphics.default : Graphics := ⟨none, (0, 0)⟩

/-- The user-interface singleton resource; `src/context/ui.rs` is not part of
the sources, so it is carried as an abstract token. -/
structure UserInterface where
  mk' ::
deriving DecidableEq, Repr

/-- Modelled from the spec: the fixed set of singleton resource slots owned
by the `Context` (window, graphics, UI state, input state, active camera). -/
structure Resources where
  window : Window
  graphics : Graphics
  user_interface : UserInterface
  input : Input
  active_camera_entity : Option EntityId
deriving DecidableEq, Repr

def Resources.default : Resources :=
  ⟨Window.default, Graphics.default, ⟨⟩, Input.default, none⟩

/-- Modelled from the spec (`src/ecs.rs` is not in the sources): the `Context`
generated by the `ecs!` macro in `src/context.rs`.  It owns the identifier
allocator (`next_entity_id`), the per-entity mask table (`entities`, an
association list keyed by live entity id), one sparse component storage per
kind (association lists), and the singleton resources. -/
structure Context where
  next_entity_id : Nat
  entities : List (EntityId × Mask)
  camera : List (EntityId × Camera)
  global_transform : List (EntityId × GlobalTransform)
  lines : List (EntityId × Lines)
  local_transform : List (EntityId × LocalTransform)
  name : List (EntityId × Name)
  parent : List (EntityId × Parent)
  quads : List (EntityId × Quads)
  resources : Resources
deriving DecidableEq, Repr

/-- The default (freshly constructed) `Context`: no entities, empty storages,
default resources. -/
def Context.default : Context :=
  ⟨0, [], [], [], [], [], [], [], [], Resources.default⟩

/-- Component-kind bit indices, in the declaration order of `src/context.rs`. -/
abbrev cameraBit : Nat := 0
abbrev globalTransformBit : Nat := 1
abbrev linesBit : Nat := 2
abbrev localTransformBit : Nat := 3
abbrev nameBit : Nat := 4
abbrev parentBit : Nat := 5
abbrev quadsBit : Nat := 6

/-- Modelled from the spec: the `CAMERA` mask constant (one reserved bit). -/
def CAMERA : Mask := (1 : Nat) <<< cameraBit
/-- Modelled from the spec: the `GLOBAL_TRANSFORM` mask constant. -/
def GLOBAL_TRANSFORM : Mask := (1 : Nat) <<< globalTransformBit
/-- Modelled from the spec: the `LINES` mask constant. -/
def LINES : Mask := (1 : Nat) <<< linesBit
/-- Modelled from the spec: the `LOCAL_TRANSFORM` mask constant. -/
def LOCAL_TRANSFORM : Mask := (1 : Nat) <<< localTransformBit
/-- Modelled from the spec: the `NAME` mask constant. -/
def NAME : Mask := (1 : Nat) <<< nameBit
/-- Modelled from the spec: the `PARENT` mask constant. -/
def PARENT : Mask := (1 : Nat) <<< parentBit
/-- Modelled from the spec: the `QUADS` mask constant. -/
def QUADS : Mask := (1 : Nat) <<< quadsBit

/-- Erase the entry (if any) for key `e` from an association list. -/
def alErase (e : EntityId) : List (EntityId × α) → List (EntityId × α)
  | [] => []
  | p :: t => if p.1 = e then alErase e t else p :: alErase e t

/-- Overwrite the value stored for key `e` (no-op when `e` is absent). -/
def alSet (e : EntityId) (v : α) : List (EntityId × α) → List (EntityId × α)
  | [] => []
  | p :: t => if p.1 = e then (e, v) :: alSet e v t else p :: alSet e v t

/-- Modelled from the spec (`add_components`): insert a default-constructed
value for a kind when the requested mask has its bit and the entity's current
mask does not (idempotent per kind: an already-present kind is untouched). -/
def addStore (e : EntityId) (m old : Mask) (k : Nat) (dflt : α)
    (s : List (EntityId × α)) : List (EntityId × α) :=
  if m.testBit k && !(old.testBit k) then (e, dflt) :: s else s

/-- Modelled from the spec (`remove_components`): clear the storage entry of
a kind when the requested mask has its bit. -/
def removeStore (e : EntityId) (m : Mask) (k : Nat)
    (s : List (EntityId × α)) : List (EntityId × α) :=
  if m.testBit k then alErase e s else s

namespace Context

/-- Modelled from the spec: the stored mask of a live entity (`none` when the
entity is not live). -/
def maskOf (ctx : Context) (e : EntityId) : Option Mask :=
  ctx.entities.lookup e

/-- Modelled from the spec: whether a live entity's mask is a superset of the
given required mask (the test behind every typed accessor and query). -/
def hasMaskBits (ctx : Context) (e : EntityId) (m : Mask) : Bool :=
  match ctx.entities.lookup e with
  | some msk => msk &&& m == m
  | none => false

/-- Modelled from the spec: `query_entities(world, required_mask)` — every
live entity whose mask is a superset of `required_mask`, one bitwise
AND-equality test per entity. -/
def query_entities (ctx : Context) (m : Mask) : List EntityId :=
  (ctx.entities.filter (fun p => p.2 &&& m == m)).map Prod.fst

/-- Modelled from the spec: `query_nth(world, required_mask, index)` — the
index-th matching entity, or none when out of range. -/
def query_nth (ctx : Context) (m : Mask) (i : Nat) : Option EntityId :=
  (query_entities ctx m)[i]?

/-- Modelled from the spec: `get_component::<Camera>` — a value exactly when
the entity's mask has the `CAMERA` bit set. -/
def get_camera (ctx : Context) (e : EntityId) : Option Camera :=
  if ctx.hasMaskBits e CAMERA then ctx.camera.lookup e else none

/-- Modelled from the spec: `get_component::<GlobalTransform>`. -/
def get_global_transform (ctx : Context) (e : EntityId) : Option GlobalTransform :=
  if ctx.hasMaskBits e GLOBAL_TRANSFORM then ctx.global_transform.lookup e else none

/-- Modelled from the spec: `get_component::<Lines>`. -/
def get_lines (ctx : Context) (e : EntityId) : Option Lines :=
  if ctx.hasMaskBits e LINES then ctx.lines.lookup e else none

/-- Modelled from the spec: `get_component::<LocalTransform>`. -/
def get_local_transform (ctx : Context) (e : EntityId) : Option LocalTransform :=
  if ctx.hasMaskBits e LOCAL_TRANSFORM then ctx.local_transform.lookup e else none

/-- Modelled from the spec: `get_component::<Name>`. -/
def get_name (ctx : Context) (e : EntityId) : Option Name :=
  if ctx.hasMaskBits e NAME then ctx.name.lookup e else none

/-- Modelled from the spec: `get_component::<Parent>`. -/
def get_parent (ctx : Context) (e : EntityId) : Option Parent :=
  if ctx.hasMaskBits e PARENT then ctx.parent.lookup e else none

/-- Modelled from the spec: `get_component::<Quads>`. -/
def get_quads (ctx : Context) (e : EntityId) : Option Quads :=
  if ctx.hasMaskBits e QUADS then ctx.quads.lookup e else none

/-- Modelled from the spec: writing through `get_component_mut::<Camera>` —
the write lands exactly when the accessor would have produced a reference. -/
def set_camera (ctx : Context) (e : EntityId) (v : Camera) : Context :=
  if ctx.hasMaskBits e CAMERA then { ctx with camera := alSet e v ctx.camera } else ctx

/-- Modelled from the spec: writing through `get_component_mut::<GlobalTransform>`. -/
def set_global_transform (ctx : Context) (e : EntityId) (v : GlobalTransform) : Context :=
  if ctx.hasMaskBits e GLOBAL_TRANSFORM then
    { ctx with global_transform := alSet e v ctx.global_transform }
  else ctx

/-- Modelled from the spec: writing through `get_component_mut::<Lines>`. -/
def set_lines (ctx : Context) (e : EntityId) (v : Lines) : Context :=
  if ctx.hasMaskBits e LINES then { ctx with lines := alSet e v ctx.lines } else ctx

/-- Modelled from the spec: writing through `get_component_mut::<LocalTransform>`. -/
def set_local_transform (ctx : Context) (e : EntityId) (v : LocalTransform) : Context :=
  if ctx.hasMaskBits e LOCAL_TRANSFORM then
    { ctx with local_transform := alSet e v ctx.local_transform }
  else ctx

/-- Modelled from the spec: writing through `get_component_mut::<Name>`. -/
def set_name (ctx : Context) (e : EntityId) (v : Name) : Context :=
  if ctx.hasMaskBits e NAME then { ctx with name := alSet e v ctx.name } else ctx

/-- Modelled from the spec: writing through `get_component_mut::<Parent>`. -/
def set_parent (ctx : Context) (e : EntityId) (v : Parent) : Context :=
  if ctx.hasMaskBits e PARENT then { ctx with parent := alSet e v ctx.parent } else ctx

/-- Modelled from the spec: writing through `get_component_mut::<Quads>`. -/
def set_quads (ctx : Context) (e : EntityId) (v : Quads) : Context :=
  if ctx.hasMaskBits e QUADS then { ctx with quads := alSet e v ctx.quads } else ctx

/-- Modelled from the spec: `spawn()` — a fresh identifier not currently
live, registered in the mask table with the empty mask. -/
def spawn (ctx : Context) : EntityId × Context :=
  (ctx.next_entity_id,
   { ctx with
     next_entity_id := ctx.next_entity_id + 1,
     entities := ctx.entities ++ [(ctx.next_entity_id, (0 : Mask))] })

/-- Modelled from the spec: `destroy(id)` — removes the entity's row from
every storage and the mask table (destroying a non-live id is a no-op). -/
def destroy (ctx : Context) (e : EntityId) : Context :=
  { ctx with
    entities := alErase e ctx.entities,
    camera := alErase e ctx.camera,
    global_transform := alErase e ctx.global_transform,
    lines := alErase e ctx.lines,
    local_transform := alErase e ctx.local_transform,
    name := alErase e ctx.name,
    parent := alErase e ctx.parent,
    quads := alErase e ctx.quads }

/-- Modelled from the spec: `add_components(world, entity, kinds)` — for each
requested kind not already present, inserts a default-constructed value into
that kind's storage and sets the corresponding mask bit; idempotent per kind. -/
def add_components (ctx : Context) (e : EntityId) (m : Mask) : Context :=
  match ctx.entities.lookup e with
  | none => ctx
  | some old =>
    { ctx with
      entities := alSet e (old ||| m) ctx.entities,
      camera := addStore e m old cameraBit Camera.default ctx.camera,
      global_transform :=
        addStore e m old globalTransformBit GlobalTransform.default ctx.global_transform,
      lines := addStore e m old linesBit Lines.default ctx.lines,
      local_transform :=
        addStore e m old localTransformBit LocalTransform.default ctx.local_transform,
      name := addStore e m old nameBit Name.default ctx.name,
      parent := addStore e m old parentBit Parent.default ctx.parent,
      quads := addStore e m old quadsBit Quads.default ctx.quads }

/-- Modelled from the spec: `remove_components(world, entity, kinds)` —
clears the corresponding storage entries and mask bits. -/
def remove_components (ctx : Context) (e : EntityId) (m : Mask) : Context :=
  match ctx.entities.lookup e with
  | none => ctx
  | some old =>
    { ctx with
      entities := alSet e (old ^^^ (old &&& m)) ctx.entities,
      camera := removeStore e m cameraBit ctx.camera,
      global_transform := removeStore e m globalTransformBit ctx.global_transform,
      lines := removeStore e m linesBit ctx.lines,
      local_transform := removeStore e m localTransformBit ctx.local_transform,
      name := removeStore e m nameBit ctx.name,
      parent := removeStore e m parentBit ctx.parent,
      quads := removeStore e m quadsBit ctx.quads }

/-- Whether component storage kind `k` (in declaration order) holds an entry
for entity `e`. -/
def storage_has_entry (ctx : Context) (k : Nat) (e : EntityId) : Bool :=
  match k with
  | 0 => (ctx.camera.lookup e).isSome
  | 1 => (ctx.global_transform.lookup e).isSome
  | 2 => (ctx.lines.lookup e).isSome
  | 3 => (ctx.local_transform.lookup e).isSome
  | 4 => (ctx.name.lookup e).isSome
  | 5 => (ctx.parent.lookup e).isSome
  | 6 => (ctx.quads.lookup e).isSome
  | _ => false

end Context

/-- The mask/storage coherence invariant: for every live entity, the mask has
bit `k` set iff component storage `k` holds an entry for that entity. -/
def Coherent (ctx : Context) : Prop :=
  ∀ e mk, ctx.entities.lookup e = some mk →
    ∀ k, k < 7 → (Nat.testBit mk k = ctx.storage_has_entry k e)

/-- `query_children` from `src/context/tree.rs`: scans all entities with a
`Parent` component and keeps those whose parent equals the target. -/
def query_children (ctx : Context) (target_entity : EntityId) : List EntityId :=
  (Context.query_entities ctx PARENT).filter (fun entity =>
    match Context.get_parent ctx entity with
    | some pr => pr.parent == target_entity
    | none => false)

/-- The stack-driven loop of `query_descendents` from `src/context/tree.rs`;
the head of `stack` models the top of the source's `Vec` (children are pushed
in order, so they are consed in reverse), and `fuel` bounds the number of pop
iterations (`none` = fuel exhausted). -/
def queryDescLoop (ctx : Context) : Nat → List EntityId → List EntityId → Option (List EntityId)
  | _, descendents, [] => some descendents
  | 0, _, _ :: _ => none
  | fuel + 1, descendents, entity :: stack =>
    queryDescLoop ctx fuel (descendents ++ [entity])
      ((query_children ctx entity).reverse ++ stack)

/-- `query_descendents` from `src/context/tree.rs`: iterative depth-first
collection of all entities below the target, the target included. -/
def query_descendentsF (ctx : Context) (fuel : Nat) (target_entity : EntityId) :
    Option (List EntityId) :=
  queryDescLoop ctx fuel [] [target_entity]

/-- The upward-walking loop of `is_descendant_of` from `src/context/tree.rs`,
with a fuel bound on the number of parent steps. -/
def isDescLoop (ctx : Context) : Nat → EntityId → EntityId → Option Bool
  | 0, _, _ => none
  | fuel + 1, current, ancestor =>
    match Context.get_parent ctx current with
    | none => some false
    | some pr =>
      if pr.parent = ancestor then some true else isDescLoop ctx fuel pr.parent ancestor

/-- `is_descendant_of` from `src/context/tree.rs`: true immediately when
`entity == ancestor`, otherwise walk the `Parent` chain upward. -/
def is_descendant_ofF (ctx : Context) (fuel : Nat) (entity ancestor : EntityId) : Option Bool :=
  if entity = ancestor then some true else isDescLoop ctx fuel entity ancestor

/-- `query_global_transform` from `src/context/transform.rs`: identity when
the entity lacks `LocalTransform`; otherwise the parent's recursively
computed world matrix times the entity's local matrix, or the local matrix
alone at a root.  `fuel` bounds the recursion depth. -/
def query_global_transformF (ctx : Context) : Nat → EntityId → Option Mat4
  | 0, _ => none
  | fuel + 1, entity =>
    match Context.get_local_transform ctx entity with
    | none => some Mat4.identity
    | some local_transform =>
      match Context.get_parent ctx entity with
      | some pr =>
        (query_global_transformF ctx fuel pr.parent).map
          (fun g => g * local_transform.as_matrix)
      | none => some local_transform.as_matrix

/-- The local matrix an entity contributes in the spec's recursion: the
`translation × rotation × scale` matrix of its `LocalTransform`, identity
when the component is absent. -/
def localMatrix (ctx : Context) (e : EntityId) : Mat4 :=
  match Context.get_local_transform ctx e with
  | some lt => lt.as_matrix
  | none => Mat4.identity

/-- The world matrix as the spec defines it, for comparison with the code:
`global(e) = global(parent(e)) × local(e)` when `e` has a `Parent` component,
else `global(e) = local(e)`.  Unlike `query_global_transformF`, a missing
`LocalTransform` contributes identity without cutting off the ancestors. -/
def specGlobalF (ctx : Context) : Nat → EntityId → Option Mat4
  | 0, _ => none
  | fuel + 1, e =>
    match Context.get_parent ctx e with
    | some pr => (specGlobalF ctx fuel pr.parent).map (fun g => g * localMatrix ctx e)
    | none => some (localMatrix ctx e)

/-- The per-entity body of `update_global_transforms_system`: compute the
world matrix of each listed entity against the current context, then write it
through `get_component_mut::<GlobalTransform>(..).unwrap()` (`none` when the
recursion exhausts its fuel or the unwrap would panic). -/
def updateGTGo (fuel : Nat) : List EntityId → Context → Option Context
  | [], c => some c
  | e :: rest, c =>
    match query_global_transformF c fuel e, Context.get_global_transform c e with
    | some m, some _ => updateGTGo fuel rest (Context.set_global_transform c e ⟨m⟩)
    | _, _ => none

/-- `update_global_transforms_system` from `src/context/transform.rs`: for
every entity matching `LOCAL_TRANSFORM | GLOBAL_TRANSFORM` (list materialized
up front), recompute its world matrix and store it in its `GlobalTransform`. -/
def update_global_transforms_systemF (fuel : Nat) (ctx : Context) : Option Context :=
  updateGTGo fuel (Context.query_entities ctx (LOCAL_TRANSFORM ||| GLOBAL_TRANSFORM)) ctx

/-- `extract_right_vector` from `src/context/transform.rs`: column 0. -/
def extract_right_vector (m : Mat4) : Vec3 := ⟨m.m00, m.m10, m.m20⟩

/-- `extract_up_vector` from `src/context/transform.rs`: column 1. -/
def extract_up_vector (m : Mat4) : Vec3 := ⟨m.m01, m.m11, m.m21⟩

/-- `extract_forward_vector` from `src/context/transform.rs`: negated column 2. -/
def extract_forward_vector (m : Mat4) : Vec3 := ⟨-m.m02, -m.m12, -m.m22⟩

/-- `LocalTransform::right_vector`. -/
def LocalTransform.right_vector (t : LocalTransform) : Vec3 :=
  extract_right_vector t.as_matrix

/-- `LocalTransform::up_vector`. -/
def LocalTransform.up_vector (t : LocalTransform) : Vec3 :=
  extract_up_vector t.as_matrix

/-- `LocalTransform::forward_vector`. -/
def LocalTransform.forward_vector (t : LocalTransform) : Vec3 :=
  extract_forward_vector t.as_matrix

/-- `query_nth_camera` from `src/context/camera.rs`:
`query_entities(context, CAMERA).get(index).copied()`. -/
def query_nth_camera (ctx : Context) (index : Nat) : Option EntityId :=
  (Context.query_entities ctx CAMERA)[index]?

/-- `wasd_keyboard_controls_system` from `src/context/camera.rs`: early
return when there is no active camera entity or it has no `LocalTransform`;
otherwise move the camera's translation along its forward/right/up vectors
for each pressed key. -/
def wasd_keyboard_controls_system (ctx : Context) : Context :=
  match ctx.resources.active_camera_entity with
  | none => ctx
  | some camera_entity =>
    let delta_time := ctx.resources.window.delta_time
    let speed := 10 * delta_time
    let keyboard := ctx.resources.input.keyboard
    let left_key_pressed := keyboard.is_key_pressed KeyCode.keyA
    let right_key_pressed := keyboard.is_key_pressed KeyCode.keyD
    let forward_key_pressed := keyboard.is_key_pressed KeyCode.keyW
    let backward_key_pressed := keyboard.is_key_pressed KeyCode.keyS
    let up_key_pressed := keyboard.is_key_pressed KeyCode.space
    match Context.get_local_transform ctx camera_entity with
    | none => ctx
    | some lt =>
      let forward := lt.forward_vector
      let right := lt.right_vector
      let up := lt.up_vector
      let t0 := lt.translation
      let t1 := if forward_key_pressed then t0 + forward.smul speed else t0
      let t2 := if backward_key_pressed then t1 - forward.smul speed else t1
      let t3 := if left_key_pressed then t2 - right.smul speed else t2
      let t4 := if right_key_pressed then t3 + right.smul speed else t3
      let t5 := if up_key_pressed then t4 + up.smul speed else t4
      Context.set_local_transform ctx camera_entity { lt with translation := t5 }

/-- The transcendental operations `look_camera_system` uses
(`nalgebra_glm::quat_angle_axis` and `f32::asin`); they have no exact
rational form, so the system is parameterized over them. -/
structure LookOps where
  quat_angle_axis : ℚ → Vec3 → Quat
  asin : ℚ → ℚ

/-- `look_camera_system` from `src/context/camera.rs`: early return when
there is no active camera entity or it has no `LocalTransform`; on right
click, yaw then conditionally pitch the camera's rotation; on middle click,
pan its translation along the right/up vectors captured before rotating. -/
def look_camera_system (ops : LookOps) (ctx : Context) : Context :=
  match ctx.resources.active_camera_entity with
  | none => ctx
  | some camera_entity =>
    match Context.get_local_transform ctx camera_entity with
    | none => ctx
    | some lt0 =>
      let right := lt0.right_vector
      let up := lt0.up_vector
      let ctx1 :=
        if ctx.resources.input.mouse.state.right_clicked then
          let dx := ctx.resources.input.mouse.position_delta.x
              * ctx.resources.window.delta_time * (-1)
          let dy := ctx.resources.input.mouse.position_delta.y
              * ctx.resources.window.delta_time * (-1)
          match Context.get_local_transform ctx camera_entity with
          | none => ctx
          | some lt =>
            let yaw := ops.quat_angle_axis dx ⟨0, 1, 0⟩
            let rot1 := yaw * lt.rotation
            let lt1 := { lt with rotation := rot1 }
            let forward := lt1.forward_vector
            let current_pitch := ops.asin forward.y
            let new_pitch := current_pitch + dy
            let rot2 :=
              if |new_pitch| ≤ toRadians 89 then rot1 * ops.quat_angle_axis dy ⟨1, 0, 0⟩
              else rot1
            Context.set_local_transform ctx camera_entity { lt with rotation := rot2 }
        else ctx
      if ctx1.resources.input.mouse.state.middle_clicked then
        let dx := ctx1.resources.input.mouse.position_delta.x
            * ctx1.resources.window.delta_time * (-1)
        let dy := ctx1.resources.input.mouse.position_delta.y
            * ctx1.resources.window.delta_time * (-1)
        match Context.get_local_transform ctx1 camera_entity with
        | none => ctx1
        | some lt =>
          Context.set_local_transform ctx1 camera_entity
            { lt with translation := lt.translation + right.smul dx + up.smul dy }
      else ctx1

/-- The per-frame systems of `run_main_systems` whose bodies live outside the
embedded core (window timing, UI, input, rendering), passed as opaque state
transformers, together with the parameters of the embedded camera/transform
systems. -/
structure FrameSystems where
  update_frame_timing_system : Context → Context
  ensure_tile_tree_system : Context → Context
  escape_key_exit_system : Context → Context
  create_ui_system : Context → Context
  render_frame_system : Context → Context
  reset_input_system : Context → Context
  look_ops : LookOps
  transform_fuel : Nat

/-- `run_main_systems` from `src/run.rs`: waits for the renderer to be
initialized (early-return no-op while `resources.graphics.renderer` is
`None`), then runs the per-frame systems in their fixed order. -/
def run_main_systemsF (fs : FrameSystems) (ctx : Context) : Option Context :=
  if ctx.resources.graphics.renderer.isNone then some ctx
  else
    let c1 := fs.update_frame_timing_system ctx
    let c2 := fs.ensure_tile_tree_system c1
    let c3 := fs.escape_key_exit_system c2
    let c4 := look_camera_system fs.look_ops c3
    let c5 := wasd_keyboard_controls_system c4
    match update_global_transforms_systemF fs.transform_fuel c5 with
    | none => none
    | some c6 => some (fs.reset_input_system (fs.render_frame_system (fs.create_ui_system c6)))

/-- The `Context` states reachable from the freshly constructed world by the
public operations of the core (spawning, destroying, adding/removing
components, and mutating a component through `get_component_mut`; the typed
getters and the queries do not change the state). -/
inductive Reachable : Context → Prop
  | init : Reachable Context.default
  | spawn (c : Context) : Reachable c → Reachable (Context.spawn c).2
  | destroy (c : Context) (e : EntityId) : Reachable c → Reachable (Context.destroy c e)
  | add_components (c : Context) (e : EntityId) (m : Mask) :
      Reachable c → Reachable (Context.add_components c e m)
  | remove_components (c : Context) (e : EntityId) (m : Mask) :
      Reachable c → Reachable (Context.remove_components c e m)
  | set_camera (c : Context) (e : EntityId) (v : Camera) :
      Reachable c → Reachable (Context.set_camera c e v)
  | set_global_transform (c : Context) (e : EntityId) (v : GlobalTransform) :
      Reachable c → Reachable (Context.set_global_transform c e v)
  | set_lines (c : Context) (e : EntityId) (v : Lines) :
      Reachable c → Reachable (Context.set_lines c e v)
  | set_local_transform (c : Context) (e : EntityId) (v : LocalTransform) :
      Reachable c → Reachable (Context.set_local_transform c e v)
  | set_name (c : Context) (e : EntityId) (v : Name) :
      Reachable c → Reachable (Context.set_name c e v)
  | set_parent (c : Context) (e : EntityId) (v : Parent) :
      Reachable c → Reachable (Context.set_parent c e v)
  | set_quads (c : Context) (e : EntityId) (v : Quads) :
      Reachable c → Reachable (Context.set_quads c e v)

section AssocListLemmas

variable {α : Type}

theorem lookup_cons (e k : EntityId) (v : α) (s : List (EntityId × α)) :
    List.lookup e ((k, v) :: s) = if e = k then some v else List.lookup e s := by
  by_cases h : e = k
  · simp [List.lookup, h]
  · have hb : (e == k) = false := by simpa using h
    simp [List.lookup, h, hb]

theorem lookup_alErase (e e' : EntityId) (s : List (EntityId × α)) :
    List.lookup e' (alErase e s) = if e' = e then none else List.lookup e' s := by
  induction s with
  | nil => simp [alErase]
  | cons p t ih =>
    obtain ⟨k, v⟩ := p
    show List.lookup e' (if k = e then alErase e t else (k, v) :: alErase e t) = _
    by_cases hk : k = e
    · rw [if_pos hk, ih]
      by_cases hee : e' = e
      · simp [hee]
      · have hek : e' ≠ k := fun h => hee (h.trans hk)
        simp [hee, lookup_cons, hek]
    · have hke : e ≠ k := fun h => hk h.symm
      rw [if_neg hk, lookup_cons, ih]
      by_cases hee : e' = e
      · have hek : e' ≠ k := fun h => hk (h.symm.trans hee)
        simp [hee, hek, lookup_cons, hk, hke]
      · by_cases hek : e' = k
        · simp [hee, hek, lookup_cons, hk, hke]
        · simp [hee, hek, lookup_cons, hk, hke]

theorem lookup_alSet (e e' : EntityId) (v : α) (s : List (EntityId × α)) :
    List.lookup e' (alSet e v s) =
      if e' = e then (List.lookup e s).map (fun _ => v) else List.lookup e' s := by
  induction s with
  | nil => simp [alSet]
  | cons p t ih =>
    obtain ⟨k, w⟩ := p
    show List.lookup e' (if k = e then (e, v) :: alSet e v t else (k, w) :: alSet e v t) = _
    by_cases hk : k = e
    · rw [if_pos hk, lookup_cons, ih]
      subst hk
      by_cases hee : e' = k <;> simp [hee, lookup_cons]
    · rw [if_neg hk, lookup_cons, ih]
      have hke : e ≠ k := fun h => hk h.symm
      by_cases hee : e' = e
      · by_cases hek : e' = k
        · exact absurd (hek.symm.trans hee) hk
        · simp [hee, hek, lookup_cons, hke, hk]
      · by_cases hek : e' = k
        · simp [hee, hek, lookup_cons, hke, hk]
        · simp [hee, hek, lookup_cons, hke, hk]

theorem map_fst_alSet (e : EntityId) (v : α) (s : List (EntityId × α)) :
    (alSet e v s).map Prod.fst = s.map Prod.fst := by
  induction s with
  | nil => rfl
  | cons p t ih =>
    obtain ⟨k, w⟩ := p
    by_cases hk : k = e <;> simp [alSet, hk, ih]

theorem lookup_append (e : EntityId) (s t : List (EntityId × α)) :
    List.lookup e (s ++ t) =
      match List.lookup e s with
      | some v => some v
      | none => List.lookup e t := by
  induction s with
  | nil => simp
  | cons p r ih =>
    obtain ⟨k, v⟩ := p
    rw [List.cons_append, lookup_cons, lookup_cons]
    by_cases he : e = k <;> simp [he, ih]

theorem mem_of_lookup_eq_some {e : EntityId} {v : α} {s : List (EntityId × α)}
    (h : List.lookup e s = some v) : (e, v) ∈ s := by
  induction s with
  | nil => simp at h
  | cons p t ih =>
    obtain ⟨k, w⟩ := p
    rw [lookup_cons] at h
    by_cases he : e = k
    · subst he
      simp at h
      simp [h]
    · simp [he] at h
      exact List.mem_cons_of_mem _ (ih h)

theorem lookup_isSome_iff_mem_keys {e : EntityId} {s : List (EntityId × α)} :
    (List.lookup e s).isSome = true ↔ e ∈ s.map Prod.fst := by
  induction s with
  | nil => simp
  | cons p t ih =>
    obtain ⟨k, w⟩ := p
    by_cases he : e = k <;> simp [lookup_cons, he, ih]

theorem lookup_eq_some_of_mem_nodup {e : EntityId} {v : α} {s : List (EntityId × α)}
    (hnd : (s.map Prod.fst).Nodup) (h : (e, v) ∈ s) : List.lookup e s = some v := by
  induction s with
  | nil => simp at h
  | cons p t ih =>
    obtain ⟨k, w⟩ := p
    simp only [List.map_cons, List.nodup_cons] at hnd
    rcases List.mem_cons.mp h with h1 | h1
    · obtain ⟨he, hv⟩ := Prod.mk.injEq .. ▸ h1
      subst he; subst hv
      simp [lookup_cons]
    · have hek : e ≠ k := by
        rintro rfl
        exact hnd.1 (List.mem_map.mpr ⟨(e, v), h1, rfl⟩)
      rw [lookup_cons, if_neg hek]
      exact ih hnd.2 h1

end AssocListLemmas

theorem mem_query_entities (ctx : Context) (m : Mask) (e : EntityId) :
    e ∈ Context.query_entities ctx m ↔ ∃ mk, (e, mk) ∈ ctx.entities ∧ mk &&& m = m := by
  simp only [Context.query_entities, List.mem_map, List.mem_filter, beq_iff_eq]
  constructor
  · rintro ⟨⟨e1, mk⟩, ⟨hm, hmask⟩, rfl⟩
    exact ⟨mk, hm, hmask⟩
  · rintro ⟨mk, hm, hmask⟩
    exact ⟨(e, mk), ⟨hm, hmask⟩, rfl⟩

/-- C2: for every world state (with well-formed, duplicate-free mask table)
and every required mask `m`, `query_entities` returns exactly the live
entities whose stored mask satisfies `mask &&& m = m`: no omissions and no
false positives (non-live entities never appear because only mask-table rows
are scanned). -/
theorem query_entities_sound_complete (ctx : Context) (m : Mask) (e : EntityId)
    (hnd : (ctx.entities.map Prod.fst).Nodup) :
    e ∈ Context.query_entities ctx m ↔
      ∃ mk, ctx.entities.lookup e = some mk ∧ mk &&& m = m := by
  rw [mem_query_entities]
  constructor
  · rintro ⟨mk, hm, hmask⟩
    exact ⟨mk, lookup_eq_some_of_mem_nodup hnd hm, hmask⟩
  · rintro ⟨mk, hl, hmask⟩
    exact ⟨mk, mem_of_lookup_eq_some hl, hmask⟩

/-- Sample context for the query-soundness witness: entity 0 has mask 3,
entity 1 has mask 1, entity 2 has the empty mask. -/
def ctxC2 : Context :=
  { Context.default with next_entity_id := 3, entities := [(0, 3), (1, 1), (2, 0)] }

theorem query_entities_sound_complete_witness :
    (0 : EntityId) ∈ Context.query_entities ctxC2 1 ∧
      (2 : EntityId) ∉ Context.query_entities ctxC2 1 := by
  constructor
  · exact (query_entities_sound_complete ctxC2 1 0 (by decide)).mpr ⟨3, by decide, by decide⟩
  · intro hmem
    obtain ⟨mk, hl, hmask⟩ := (query_entities_sound_complete ctxC2 1 2 (by decide)).mp hmem
    have : mk = 0 := by
      have : List.lookup 2 ctxC2.entities = some 0 := by decide
      rw [this] at hl
      exact (Option.some.injEq .. ▸ hl).symm
    subst this
    simp at hmask

/-- Sample context for the nth-camera witness: entities 0 and 1 both hold a
`Camera`. -/
def ctxC9 : Context :=
  { Context.default with
    next_entity_id := 2,
    entities := [(0, CAMERA), (1, CAMERA)],
    camera := [(0, Camera.default), (1, Camera.default)] }

/-- C9: `query_nth_camera(context, i)` returns `some` of the i-th element of
`query_entities(context, CAMERA)` exactly when `i` is in range, and `none`
when `i` is out of range. -/
theorem query_nth_camera_spec (ctx : Context) (i : Nat) :
    (∀ h : i < (Context.query_entities ctx CAMERA).length,
        query_nth_camera ctx i = some ((Context.query_entities ctx CAMERA).get ⟨i, h⟩)) ∧
    ((Context.query_entities ctx CAMERA).length ≤ i → query_nth_camera ctx i = none) := by
  constructor
  · intro h
    simp [query_nth_camera, List.getElem?_eq_getElem h]
  · intro h
    simp [query_nth_camera, List.getElem?_eq_none h]

theorem query_nth_camera_spec_witness :
    query_nth_camera ctxC9 1 = some 1 ∧ query_nth_camera ctxC9 2 = none := by
  constructor
  · have h := (query_nth_camera_spec ctxC9 1).1 (by decide)
    exact h.trans (by decide)
  · exact (query_nth_camera_spec ctxC9 2).2 (by decide)

/-- C5: in a context with a parent chain a→b→c (the parent graph acyclic in
that `a` is a root), `is_descendant_of` is reflexive for every entity (any
fuel, even none, suffices since the check precedes the loop), walking up from
`c` reaches `a` (true), and walking up from `a` hits the root without meeting
`c` (false). -/
theorem is_descendant_of_spec (ctx : Context) (a b c : EntityId) (fuel : Nat)
    (hfuel : 2 ≤ fuel)
    (hpa : Context.get_parent ctx a = none)
    (hpb : Context.get_parent ctx b = some ⟨a⟩)
    (hpc : Context.get_parent ctx c = some ⟨b⟩) :
    (∀ e f, is_descendant_ofF ctx f e e = some true) ∧
    is_descendant_ofF ctx fuel c a = some true ∧
    is_descendant_ofF ctx fuel a c = some false := by
  have hca : c ≠ a := by
    rintro rfl
    rw [hpa] at hpc
    cases hpc
  have hac : a ≠ c := fun h => hca h.symm
  have hba : b ≠ a := by
    rintro rfl
    rw [hpa] at hpb
    cases hpb
  obtain ⟨f, hf⟩ := Nat.exists_eq_add_of_le hfuel
  have hf2 : fuel = f + 2 := by omega
  subst hf2
  refine ⟨fun e f => by simp [is_descendant_ofF], ?_, ?_⟩
  · rw [is_descendant_ofF, if_neg hca]
    show isDescLoop ctx (f + 1 + 1) c a = some true
    rw [isDescLoop, hpc]
    simp only [if_neg hba]
    show isDescLoop ctx (f + 1) b a = some true
    rw [isDescLoop, hpb]
    simp
  · rw [is_descendant_ofF, if_neg hac]
    show isDescLoop ctx (f + 1 + 1) a c = some false
    rw [isDescLoop, hpa]

/-- Sample context for the descendant witness: parent chain 0 → 1 → 2, with
entity 0 a component-less root. -/
def ctxC5 : Context :=
  { Context.default with
    next_entity_id := 3,
    entities := [(0, 0), (1, PARENT), (2, PARENT)],
    parent := [(1, ⟨0⟩), (2, ⟨1⟩)] }

theorem is_descendant_of_spec_witness :
    is_descendant_ofF ctxC5 2 2 0 = some true ∧
    is_descendant_ofF ctxC5 2 0 2 = some false ∧
    is_descendant_ofF ctxC5 0 7 7 = some true := by
  have h := is_descendant_of_spec ctxC5 0 1 2 2 (by decide) (by decide) (by decide) (by decide)
  exact ⟨h.2.1, h.2.2, h.1 7 0⟩

theorem get_parent_mem {ctx : Context} {e : EntityId} {pr : Parent}
    (h : Context.get_parent ctx e = some pr) : (e, pr) ∈ ctx.parent := by
  unfold Context.get_parent at h
  split at h
  · exact mem_of_lookup_eq_some h
  · cases h

theorem isDescLoop_isSome (ctx : Context) (d : EntityId → Nat)
    (hac : ∀ pr ∈ ctx.parent, d pr.2.parent < d pr.1) :
    ∀ fuel cur anc, d cur < fuel → (isDescLoop ctx fuel cur anc).isSome := by
  intro fuel
  induction fuel with
  | zero => intro cur anc h; omega
  | succ f ih =>
    intro cur anc h
    rw [isDescLoop]
    cases hp : Context.get_parent ctx cur with
    | none => rfl
    | some pr =>
      by_cases he : pr.parent = anc
      · simp [he]
      · have hmem := get_parent_mem hp
        have hd : d pr.parent < d cur := by simpa using hac (cur, pr) hmem
        simp only [if_neg he]
        exact ih pr.parent anc (by omega)

theorem query_global_transformF_isSome (ctx : Context) (d : EntityId → Nat)
    (hac : ∀ pr ∈ ctx.parent, d pr.2.parent < d pr.1) :
    ∀ fuel e, d e < fuel → (query_global_transformF ctx fuel e).isSome := by
  intro fuel
  induction fuel with
  | zero => intro e h; omega
  | succ f ih =>
    intro e h
    rw [query_global_transformF]
    cases hl : Context.get_local_transform ctx e with
    | none => rfl
    | some lt =>
      cases hp : Context.get_parent ctx e with
      | none => rfl
      | some pr =>
        have hmem := get_parent_mem hp
        have hd : d pr.parent < d e := by simpa using hac (e, pr) hmem
        have hs := ih pr.parent (by omega)
        obtain ⟨v, hv⟩ := Option.isSome_iff_exists.mp hs
        simp [hv]

/-- C7: when the parent graph is acyclic (expressed by a rank function that
strictly decreases along parent edges), both the recursive world-matrix
computation `query_global_transform` and the iterative parent-chain walk of
`is_descendant_of` terminate for every starting entity: some finite fuel
makes them return a result. -/
theorem transform_and_descendant_terminate (ctx : Context) (d : EntityId → Nat)
    (hac : ∀ pr ∈ ctx.parent, d pr.2.parent < d pr.1) (e a : EntityId) :
    ∃ fuel, (query_global_transformF ctx fuel e).isSome ∧
      (is_descendant_ofF ctx fuel e a).isSome := by
  refine ⟨d e + 1, query_global_transformF_isSome ctx d hac _ e (by omega), ?_⟩
  rw [is_descendant_ofF]
  by_cases hea : e = a
  · simp [hea]
  · simp only [if_neg hea]
    exact isDescLoop_isSome ctx d hac _ e a (by omega)

/-- Sample context for the termination witness: parent chain 0 → 1 → 2 with
local transforms everywhere. -/
def ctxC7 : Context :=
  { Context.default with
    next_entity_id := 3,
    entities :=
      [(0, LOCAL_TRANSFORM), (1, LOCAL_TRANSFORM ||| PARENT), (2, LOCAL_TRANSFORM ||| PARENT)],
    local_transform :=
      [(0, LocalTransform.default), (1, LocalTransform.default), (2, LocalTransform.default)],
    parent := [(1, ⟨0⟩), (2, ⟨1⟩)] }

theorem transform_and_descendant_terminate_witness :
    ∃ fuel, (query_global_transformF ctxC7 fuel 2).isSome ∧
      (is_descendant_ofF ctxC7 fuel 2 0).isSome :=
  transform_and_descendant_terminate ctxC7 (fun e => e) (by decide) 2 0

theorem mat4_identity_mul (m : Mat4) : Mat4.identity * m = m := by
  cases m
  show Mat4.mul Mat4.identity _ = _
  simp [Mat4.mul, Mat4.identity]

/-- C4 amended: an entity lacking `LocalTransform` yields the identity matrix
as its own world matrix and thereby cuts off the ancestors above it: for `c`
holding `LocalTransform` whose parent `b` lacks `LocalTransform`, the world
matrix computed for `c` is `identity × local(c) = local(c)`, regardless of
what `b`'s own ancestors hold. -/
theorem missing_local_transform_cuts_chain (ctx : Context) (b c : EntityId)
    (lt : LocalTransform) (fuel : Nat)
    (hpc : Context.get_parent ctx c = some ⟨b⟩)
    (hlc : Context.get_local_transform ctx c = some lt)
    (hlb : Context.get_local_transform ctx b = none) :
    query_global_transformF ctx (fuel + 2) c = some lt.as_matrix := by
  show query_global_transformF ctx (fuel + 1 + 1) c = _
  rw [query_global_transformF, hlc, hpc]
  show (query_global_transformF ctx (fuel + 1) b).map _ = _
  rw [query_global_transformF, hlb]
  show some (Mat4.identity * lt.as_matrix) = _
  rw [mat4_identity_mul]

/-- Sample context refuting the original reading of the identity-contribution
rule: entity 0 holds a local translation by (1,0,0); entity 1 (child of 0)
holds a `Parent` but no `LocalTransform`; entity 2 (child of 1) holds the
default `LocalTransform`. -/
def ctxC4 : Context :=
  { Context.default with
    next_entity_id := 3,
    entities :=
      [(0, LOCAL_TRANSFORM), (1, PARENT), (2, LOCAL_TRANSFORM ||| PARENT)],
    local_transform :=
      [(0, ⟨⟨1, 0, 0⟩, Quat.identity, Vec3.one⟩), (2, LocalTransform.default)],
    parent := [(1, ⟨0⟩), (2, ⟨1⟩)] }

/-- C4 counterexample: in `ctxC4`, the code computes `a`'s world matrix as a
translation by (1,0,0) and `c`'s local matrix as identity, yet the world
matrix computed for `c` is the identity — not `global(a) × local(c)`, which
is the translation.  The ancestors above the `LocalTransform`-less entity are
cut off, contradicting the claim that they still appear. -/
theorem missing_local_transform_counterexample :
    Context.get_parent ctxC4 2 = some ⟨1⟩ ∧
    Context.get_parent ctxC4 1 = some ⟨0⟩ ∧
    Context.get_local_transform ctxC4 1 = none ∧
    query_global_transformF ctxC4 10 0 = some (translationMat ⟨1, 0, 0⟩) ∧
    localMatrix ctxC4 2 = Mat4.identity ∧
    query_global_transformF ctxC4 10 2 = some Mat4.identity ∧
    Mat4.identity ≠ translationMat ⟨1, 0, 0⟩ * Mat4.identity := by
  refine ⟨by decide, by decide, by decide, ?_, ?_, ?_, ?_⟩
  · show (query_global_transformF ctxC4 (9 + 1) 0) = _
    rw [query_global_transformF]
    have hl : Context.get_local_transform ctxC4 0 =
        some ⟨⟨1, 0, 0⟩, Quat.identity, Vec3.one⟩ := by decide
    have hp : Context.get_parent ctxC4 0 = none := by decide
    rw [hl, hp]
    simp only [LocalTransform.as_matrix, quatToMat4Normalized, Quat.identity, Quat.normSq,
      translationMat, scalingMat, Vec3.one, mat4_mul_def, Mat4.mul, Option.some.injEq,
      Mat4.mk.injEq]
    norm_num
  · have hl : Context.get_local_transform ctxC4 2 = some LocalTransform.default := by decide
    simp only [localMatrix, hl]
    simp only [localMatrix, hl, LocalTransform.as_matrix, LocalTransform.default,
      quatToMat4Normalized, Quat.identity, Quat.normSq, translationMat, scalingMat, Vec3.one,
      Vec3.zero, Mat4.identity, mat4_mul_def, Mat4.mul, Mat4.mk.injEq]
    norm_num
  · show query_global_transformF ctxC4 (8 + 1 + 1) 2 = _
    have hlc : Context.get_local_transform ctxC4 2 = some LocalTransform.default := by decide
    have hpc : Context.get_parent ctxC4 2 = some ⟨1⟩ := by decide
    have hlb : Context.get_local_transform ctxC4 1 = none := by decide
    rw [query_global_transformF, hlc, hpc]
    show (query_global_transformF ctxC4 (8 + 1) 1).map _ = _
    rw [query_global_transformF, hlb]
    show some (Mat4.identity * LocalTransform.default.as_matrix) = _
    simp only [LocalTransform.as_matrix, LocalTransform.default, quatToMat4Normalized,
      Quat.identity, Quat.normSq, translationMat, scalingMat, Vec3.one, Vec3.zero,
      Mat4.identity, mat4_mul_def, Mat4.mul, Option.some.injEq, Mat4.mk.injEq]
    norm_num
  · intro h
    have := congrArg Mat4.m03 h
    simp only [Mat4.identity, translationMat, mat4_mul_def, Mat4.mul] at this
    norm_num at this

theorem missing_local_transform_cuts_chain_witness :
    query_global_transformF ctxC4 10 2 = some (LocalTransform.default).as_matrix :=
  missing_local_transform_cuts_chain ctxC4 1 2 LocalTransform.default 8
    (by decide) (by decide) (by decide)

/-- C8: per-frame operations depending on an uninitialized singleton resource
are early-return no-ops: with no renderer, `run_main_systems` leaves the
whole `Context` unchanged (for any bodies of the non-core systems); with no
active camera entity, `wasd_keyboard_controls_system` and
`look_camera_system` leave the whole `Context` unchanged. -/
theorem uninitialized_resource_noop (fs : FrameSystems) (ops : LookOps) (ctx : Context) :
    (ctx.resources.graphics.renderer = none → run_main_systemsF fs ctx = some ctx) ∧
    (ctx.resources.active_camera_entity = none →
      wasd_keyboard_controls_system ctx = ctx ∧ look_camera_system ops ctx = ctx) := by
  refine ⟨fun h => ?_, fun h => ⟨?_, ?_⟩⟩
  · simp [run_main_systemsF, h]
  · simp [wasd_keyboard_controls_system, h]
  · simp [look_camera_system, h]

/-- Trivial stand-ins for the transcendental camera operations, used by
concrete instantiations. -/
def opsTrivial : LookOps := ⟨fun _ _ => Quat.identity, fun x => x⟩

/-- Identity stand-ins for the non-core per-frame systems, used by concrete
instantiations. -/
def fsTrivial : FrameSystems := ⟨id, id, id, id, id, id, opsTrivial, 1⟩

theorem uninitialized_resource_noop_witness :
    run_main_systemsF fsTrivial Context.default = some Context.default ∧
    wasd_keyboard_controls_system Context.default = Context.default ∧
    look_camera_system opsTrivial Context.default = Context.default := by
  have h := uninitialized_resource_noop fsTrivial opsTrivial Context.default
  exact ⟨h.1 rfl, (h.2 rfl).1, (h.2 rfl).2⟩

theorem set_gt_next (c : Context) (e : EntityId) (v : GlobalTransform) :
    (Context.set_global_transform c e v).next_entity_id = c.next_entity_id := by
  unfold Context.set_global_transform; split <;> rfl

theorem set_gt_entities (c : Context) (e : EntityId) (v : GlobalTransform) :
    (Context.set_global_transform c e v).entities = c.entities := by
  unfold Context.set_global_transform; split <;> rfl

theorem set_gt_camera (c : Context) (e : EntityId) (v : GlobalTransform) :
    (Context.set_global_transform c e v).camera = c.camera := by
  unfold Context.set_global_transform; split <;> rfl

theorem set_gt_lines (c : Context) (e : EntityId) (v : GlobalTransform) :
    (Context.set_global_transform c e v).lines = c.lines := by
  unfold Context.set_global_transform; split <;> rfl

theorem set_gt_local_transform (c : Context) (e : EntityId) (v : GlobalTransform) :
    (Context.set_global_transform c e v).local_transform = c.local_transform := by
  unfold Context.set_global_transform; split <;> rfl

theorem set_gt_name (c : Context) (e : EntityId) (v : GlobalTransform) :
    (Context.set_global_transform c e v).name = c.name := by
  unfold Context.set_global_transform; split <;> rfl

theorem set_gt_parent (c : Context) (e : EntityId) (v : GlobalTransform) :
    (Context.set_global_transform c e v).parent = c.parent := by
  unfold Context.set_global_transform; split <;> rfl

theorem set_gt_quads (c : Context) (e : EntityId) (v : GlobalTransform) :
    (Context.set_global_transform c e v).quads = c.quads := by
  unfold Context.set_global_transform; split <;> rfl

theorem set_gt_resources (c : Context) (e : EntityId) (v : GlobalTransform) :
    (Context.set_global_transform c e v).resources = c.resources := by
  unfold Context.set_global_transform; split <;> rfl

theorem hasMaskBits_congr (c c' : Context) (h1 : c'.entities = c.entities)
    (e : EntityId) (m : Mask) : Context.hasMaskBits c' e m = Context.hasMaskBits c e m := by
  unfold Context.hasMaskBits
  rw [h1]

theorem get_gt_set_gt_self (c : Context) (e : EntityId) (v : GlobalTransform)
    (h : (Context.get_global_transform c e).isSome = true) :
    Context.get_global_transform (Context.set_global_transform c e v) e = some v := by
  unfold Context.get_global_transform at h ⊢
  rw [hasMaskBits_congr c (Context.set_global_transform c e v) (set_gt_entities c e v)]
  by_cases hb : Context.hasMaskBits c e GLOBAL_TRANSFORM
  · rw [if_pos hb] at h ⊢
    unfold Context.set_global_transform
    rw [if_pos hb]
    show List.lookup e (alSet e v c.global_transform) = some v
    rw [lookup_alSet]
    obtain ⟨w, hw⟩ := Option.isSome_iff_exists.mp h
    simp [hw]
  · rw [if_neg hb] at h
    cases h

theorem get_gt_set_gt_ne (c : Context) (e x : EntityId) (v : GlobalTransform)
    (h : x ≠ e) :
    Context.get_global_transform (Context.set_global_transform c e v) x =
      Context.get_global_transform c x := by
  unfold Context.get_global_transform
  rw [hasMaskBits_congr c (Context.set_global_transform c e v) (set_gt_entities c e v)]
  by_cases hb : Context.hasMaskBits c x GLOBAL_TRANSFORM
  · rw [if_pos hb, if_pos hb]
    unfold Context.set_global_transform
    split
    · show List.lookup x (alSet e v c.global_transform) = _
      rw [lookup_alSet, if_neg h]
    · rfl
  · rw [if_neg hb, if_neg hb]

theorem get_gt_set_gt_isSome (c : Context) (e x : EntityId) (v : GlobalTransform) :
    (Context.get_global_transform (Context.set_global_transform c e v) x).isSome =
      (Context.get_global_transform c x).isSome := by
  unfold Context.get_global_transform
  rw [hasMaskBits_congr c (Context.set_global_transform c e v) (set_gt_entities c e v)]
  by_cases hb : Context.hasMaskBits c x GLOBAL_TRANSFORM
  · rw [if_pos hb, if_pos hb]
    unfold Context.set_global_transform
    split
    · show (List.lookup x (alSet e v c.global_transform)).isSome = _
      rw [lookup_alSet]
      by_cases hx : x = e
      · subst hx
        rw [if_pos rfl]
        cases List.lookup x c.global_transform <;> rfl
      · rw [if_neg hx]
    · rfl
  · rw [if_neg hb, if_neg hb]

theorem get_local_transform_congr (c c' : Context) (h1 : c'.entities = c.entities)
    (h2 : c'.local_transform = c.local_transform) (e : EntityId) :
    Context.get_local_transform c' e = Context.get_local_transform c e := by
  unfold Context.get_local_transform Context.hasMaskBits
  rw [h1, h2]

theorem get_parent_congr (c c' : Context) (h1 : c'.entities = c.entities)
    (h2 : c'.parent = c.parent) (e : EntityId) :
    Context.get_parent c' e = Context.get_parent c e := by
  unfold Context.get_parent Context.hasMaskBits
  rw [h1, h2]

theorem query_global_transformF_congr (c c' : Context) (h1 : c'.entities = c.entities)
    (h2 : c'.local_transform = c.local_transform) (h3 : c'.parent = c.parent) :
    ∀ fuel e, query_global_transformF c' fuel e = query_global_transformF c fuel e := by
  intro fuel
  induction fuel with
  | zero => intro e; rfl
  | succ f ih =>
    intro e
    rw [query_global_transformF, query_global_transformF,
      get_local_transform_congr c c' h1 h2 e, get_parent_congr c c' h1 h3 e]
    cases Context.get_local_transform c e with
    | none => rfl
    | some lt =>
      cases Context.get_parent c e with
      | none => rfl
      | some pr =>
        show Option.map (fun g => g * lt.as_matrix) (query_global_transformF c' f pr.parent) =
          Option.map (fun g => g * lt.as_matrix) (query_global_transformF c f pr.parent)
        rw [ih]

theorem updateGTGo_fields (fuel : Nat) :
    ∀ (l : List EntityId) (c c' : Context), updateGTGo fuel l c = some c' →
      c'.next_entity_id = c.next_entity_id ∧ c'.entities = c.entities ∧ c'.camera = c.camera ∧
      c'.lines = c.lines ∧ c'.local_transform = c.local_transform ∧ c'.name = c.name ∧
      c'.parent = c.parent ∧ c'.quads = c.quads ∧ c'.resources = c.resources := by
  intro l
  induction l with
  | nil =>
    intro c c' h
    rw [updateGTGo] at h
    have := Option.some.inj h
    subst this
    exact ⟨rfl, rfl, rfl, rfl, rfl, rfl, rfl, rfl, rfl⟩
  | cons e rest ih =>
    intro c c' h
    rw [updateGTGo] at h
    cases hq : query_global_transformF c fuel e with
    | none =>
      cases hg : Context.get_global_transform c e with
      | none => rw [hq, hg] at h; cases h
      | some g => rw [hq, hg] at h; cases h
    | some m =>
      cases hg : Context.get_global_transform c e with
      | none => rw [hq, hg] at h; cases h
      | some g =>
        rw [hq, hg] at h
        obtain ⟨h1, h2, h3, h4, h5, h6, h7, h8, h9⟩ :=
          ih (Context.set_global_transform c e ⟨m⟩) c' h
        exact ⟨h1.trans (set_gt_next c e ⟨m⟩), h2.trans (set_gt_entities c e ⟨m⟩),
          h3.trans (set_gt_camera c e ⟨m⟩), h4.trans (set_gt_lines c e ⟨m⟩),
          h5.trans (set_gt_local_transform c e ⟨m⟩), h6.trans (set_gt_name c e ⟨m⟩),
          h7.trans (set_gt_parent c e ⟨m⟩), h8.trans (set_gt_quads c e ⟨m⟩),
          h9.trans (set_gt_resources c e ⟨m⟩)⟩

theorem updateGTGo_get_not_mem (fuel : Nat) :
    ∀ (l : List EntityId) (c c' : Context), updateGTGo fuel l c = some c' →
      ∀ x, x ∉ l → Context.get_global_transform c' x = Context.get_global_transform c x := by
  intro l
  induction l with
  | nil =>
    intro c c' h x _
    rw [updateGTGo] at h
    have := Option.some.inj h
    subst this
    rfl
  | cons e rest ih =>
    intro c c' h x hx
    have hxe : x ≠ e := fun hh => hx (hh ▸ List.mem_cons_self e rest)
    have hxr : x ∉ rest := fun hh => hx (List.mem_cons_of_mem e hh)
    rw [updateGTGo] at h
    cases hq : query_global_transformF c fuel e with
    | none =>
      cases hg : Context.get_global_transform c e with
      | none => rw [hq, hg] at h; cases h
      | some g => rw [hq, hg] at h; cases h
    | some m =>
      cases hg : Context.get_global_transform c e with
      | none => rw [hq, hg] at h; cases h
      | some g =>
        rw [hq, hg] at h
        have hstep := ih (Context.set_global_transform c e ⟨m⟩) c' h x hxr
        rw [hstep, get_gt_set_gt_ne c e x ⟨m⟩ hxe]

/-- C10: `update_global_transforms_system` writes only the `GlobalTransform`
components of entities matching `LOCAL_TRANSFORM | GLOBAL_TRANSFORM`: whenever
the system completes (its fueled embedding returns a context), the mask
table / live-entity set, every other component storage, all singleton
resources, and the `GlobalTransform` of every non-matching entity are
unchanged. -/
theorem update_global_transforms_frame_effect (fuel : Nat) (ctx ctx' : Context)
    (h : update_global_transforms_systemF fuel ctx = some ctx') :
    ctx'.next_entity_id = ctx.next_entity_id ∧
    ctx'.entities = ctx.entities ∧
    ctx'.camera = ctx.camera ∧
    ctx'.lines = ctx.lines ∧
    ctx'.local_transform = ctx.local_transform ∧
    ctx'.name = ctx.name ∧
    ctx'.parent = ctx.parent ∧
    ctx'.quads = ctx.quads ∧
    ctx'.resources = ctx.resources ∧
    ∀ e, e ∉ Context.query_entities ctx (LOCAL_TRANSFORM ||| GLOBAL_TRANSFORM) →
      Context.get_global_transform ctx' e = Context.get_global_transform ctx e := by
  unfold update_global_transforms_systemF at h
  obtain ⟨h1, h2, h3, h4, h5, h6, h7, h8, h9⟩ := updateGTGo_fields fuel _ ctx ctx' h
  exact ⟨h1, h2, h3, h4, h5, h6, h7, h8, h9,
    fun e he => updateGTGo_get_not_mem fuel _ ctx ctx' h e he⟩

/-- Sample context for the frame-effect witness: one entity holding both a
`LocalTransform` and a `GlobalTransform`, plus a second entity with only a
`Name`. -/
def ctxC10 : Context :=
  { Context.default with
    next_entity_id := 2,
    entities := [(0, LOCAL_TRANSFORM ||| GLOBAL_TRANSFORM), (1, NAME)],
    local_transform := [(0, LocalTransform.default)],
    global_transform := [(0, GlobalTransform.default)],
    name := [(1, ⟨"anchor"⟩)] }

theorem update_global_transforms_frame_effect_witness :
    ∃ ctx', update_global_transforms_systemF 1 ctxC10 = some ctx' ∧
      ctx'.resources = ctxC10.resources ∧ ctx'.entities = ctxC10.entities ∧
      ctx'.name = ctxC10.name ∧
      Context.get_global_transform ctx' 1 = Context.get_global_transform ctxC10 1 := by
  have h : update_global_transforms_systemF 1 ctxC10 =
      some (Context.set_global_transform ctxC10 0 ⟨LocalTransform.default.as_matrix⟩) := rfl
  have hf := update_global_transforms_frame_effect 1 ctxC10 _ h
  exact ⟨_, h, hf.2.2.2.2.2.2.2.2.1, hf.2.1, hf.2.2.2.2.2.1,
    hf.2.2.2.2.2.2.2.2.2 1 (by decide)⟩

theorem localMatrix_eq_of_some {ctx : Context} {e : EntityId} {lt : LocalTransform}
    (hl : Context.get_local_transform ctx e = some lt) : localMatrix ctx e = lt.as_matrix := by
  unfold localMatrix
  rw [hl]

theorem specGlobalF_isSome (ctx : Context) (d : EntityId → Nat)
    (hac : ∀ pr ∈ ctx.parent, d pr.2.parent < d pr.1) :
    ∀ fuel e, d e < fuel → (specGlobalF ctx fuel e).isSome = true := by
  intro fuel
  induction fuel with
  | zero => intro e h; omega
  | succ f ih =>
    intro e h
    rw [specGlobalF]
    cases hp : Context.get_parent ctx e with
    | none => rfl
    | some pr =>
      have hd : d pr.parent < d e := by simpa using hac (e, pr) (get_parent_mem hp)
      have hs := ih pr.parent (by omega)
      obtain ⟨v, hv⟩ := Option.isSome_iff_exists.mp hs
      simp [hv]

theorem queryGTF_eq_specGlobalF (ctx : Context)
    (hchain : ∀ pr ∈ ctx.parent, (Context.get_local_transform ctx pr.2.parent).isSome = true) :
    ∀ fuel e, (Context.get_local_transform ctx e).isSome = true →
      query_global_transformF ctx fuel e = specGlobalF ctx fuel e := by
  intro fuel
  induction fuel with
  | zero => intro e _; rfl
  | succ f ih =>
    intro e he
    obtain ⟨lt, hl⟩ := Option.isSome_iff_exists.mp he
    rw [query_global_transformF, specGlobalF, hl]
    cases hp : Context.get_parent ctx e with
    | none =>
      show some lt.as_matrix = some (localMatrix ctx e)
      rw [localMatrix_eq_of_some hl]
    | some pr =>
      have hplt : (Context.get_local_transform ctx pr.parent).isSome = true := by
        simpa using hchain (e, pr) (get_parent_mem hp)
      show Option.map (fun g => g * lt.as_matrix) (query_global_transformF ctx f pr.parent) =
        Option.map (fun g => g * localMatrix ctx e) (specGlobalF ctx f pr.parent)
      rw [ih pr.parent hplt, localMatrix_eq_of_some hl]

theorem updateGTGo_correct (ctx : Context) (fuel : Nat) :
    ∀ (l : List EntityId) (c : Context),
      c.entities = ctx.entities → c.local_transform = ctx.local_transform →
      c.parent = ctx.parent → l.Nodup →
      (∀ e ∈ l, (query_global_transformF ctx fuel e).isSome = true ∧
        (Context.get_global_transform c e).isSome = true) →
      ∃ c', updateGTGo fuel l c = some c' ∧
        (∀ e ∈ l, ∀ m, query_global_transformF ctx fuel e = some m →
          Context.get_global_transform c' e = some ⟨m⟩) ∧
        (∀ x, x ∉ l → Context.get_global_transform c' x = Context.get_global_transform c x) := by
  intro l
  induction l with
  | nil =>
    intro c _ _ _ _ _
    exact ⟨c, rfl, fun e he => absurd he (List.not_mem_nil e), fun x _ => rfl⟩
  | cons e rest ih =>
    intro c h1 h2 h3 hnd hall
    obtain ⟨hqs, hgs⟩ := hall e (List.mem_cons_self e rest)
    have hcongr := query_global_transformF_congr ctx c h1 h2 h3 fuel e
    obtain ⟨m, hm⟩ := Option.isSome_iff_exists.mp hqs
    have hmc : query_global_transformF c fuel e = some m := hcongr.trans hm
    obtain ⟨g, hg⟩ := Option.isSome_iff_exists.mp hgs
    have h1' : (Context.set_global_transform c e ⟨m⟩).entities = ctx.entities :=
      (set_gt_entities c e ⟨m⟩).trans h1
    have h2' : (Context.set_global_transform c e ⟨m⟩).local_transform = ctx.local_transform :=
      (set_gt_local_transform c e ⟨m⟩).trans h2
    have h3' : (Context.set_global_transform c e ⟨m⟩).parent = ctx.parent :=
      (set_gt_parent c e ⟨m⟩).trans h3
    have hem : e ∉ rest := (List.nodup_cons.mp hnd).1
    have hnd' : rest.Nodup := (List.nodup_cons.mp hnd).2
    have hall' : ∀ x ∈ rest, (query_global_transformF ctx fuel x).isSome = true ∧
        (Context.get_global_transform (Context.set_global_transform c e ⟨m⟩) x).isSome = true := by
      intro x hx
      refine ⟨(hall x (List.mem_cons_of_mem _ hx)).1, ?_⟩
      rw [get_gt_set_gt_isSome c e x ⟨m⟩]
      exact (hall x (List.mem_cons_of_mem _ hx)).2
    obtain ⟨c', hgo, hres, hpre⟩ :=
      ih (Context.set_global_transform c e ⟨m⟩) h1' h2' h3' hnd' hall'
    refine ⟨c', ?_, ?_, ?_⟩
    · rw [updateGTGo, hmc, hg]
      exact hgo
    · intro x hx m' hm'
      rcases List.mem_cons.mp hx with rfl | hx'
      · have hmm : m' = m := by
          rw [hm] at hm'
          exact (Option.some.inj hm').symm
        subst hmm
        rw [hpre x hem]
        exact get_gt_set_gt_self c x ⟨m'⟩ hgs
      · exact hres x hx' m' hm'
    · intro x hx
      have hxe : x ≠ e := fun hh => hx (hh ▸ List.mem_cons_self e rest)
      have hxr : x ∉ rest := fun hh => hx (List.mem_cons_of_mem e hh)
      rw [hpre x hxr, get_gt_set_gt_ne c e x ⟨m⟩ hxe]

/-- C1: on a context whose parent graph is acyclic (rank function) and in
which every entity on a parent chain holds a `LocalTransform`, running
`update_global_transforms_system` gives every entity holding both
`LocalTransform` and `GlobalTransform` a `GlobalTransform` equal to the
spec's recursively defined world matrix: `global(e) = global(parent(e)) ×
local(e)` when `e` has a parent, else `local(e)`, where `local(e)` is the
`translation × rotation × scale` matrix of `e`'s `LocalTransform`.  In
particular, for a chain root → child → grandchild with local matrices L0,
L1, L2, the grandchild ends with `(L0 × L1) × L2` and the root with `L0`. -/
theorem update_global_transforms_correct (ctx : Context) (d : EntityId → Nat) (fuel : Nat)
    (hac : ∀ pr ∈ ctx.parent, d pr.2.parent < d pr.1)
    (hnd : (ctx.entities.map Prod.fst).Nodup)
    (hq : ∀ e ∈ Context.query_entities ctx (LOCAL_TRANSFORM ||| GLOBAL_TRANSFORM),
        (Context.get_local_transform ctx e).isSome = true ∧
        (Context.get_global_transform ctx e).isSome = true)
    (hchain : ∀ pr ∈ ctx.parent, (Context.get_local_transform ctx pr.2.parent).isSome = true)
    (hfuel : ∀ e ∈ Context.query_entities ctx (LOCAL_TRANSFORM ||| GLOBAL_TRANSFORM), d e < fuel) :
    ∃ ctx', update_global_transforms_systemF fuel ctx = some ctx' ∧
      ∀ e ∈ Context.query_entities ctx (LOCAL_TRANSFORM ||| GLOBAL_TRANSFORM),
        ∃ m, specGlobalF ctx fuel e = some m ∧
          Context.get_global_transform ctx' e = some ⟨m⟩ := by
  have hndl : (Context.query_entities ctx (LOCAL_TRANSFORM ||| GLOBAL_TRANSFORM)).Nodup := by
    unfold Context.query_entities
    exact List.Nodup.sublist (List.Sublist.map Prod.fst (List.filter_sublist _)) hnd
  have hall : ∀ e ∈ Context.query_entities ctx (LOCAL_TRANSFORM ||| GLOBAL_TRANSFORM),
      (query_global_transformF ctx fuel e).isSome = true ∧
      (Context.get_global_transform ctx e).isSome = true := fun e he =>
    ⟨query_global_transformF_isSome ctx d hac fuel e (hfuel e he), (hq e he).2⟩
  obtain ⟨ctx', hgo, hres, _⟩ := updateGTGo_correct ctx fuel
    (Context.query_entities ctx (LOCAL_TRANSFORM ||| GLOBAL_TRANSFORM)) ctx
    rfl rfl rfl hndl hall
  refine ⟨ctx', hgo, fun e he => ?_⟩
  obtain ⟨m, hm⟩ := Option.isSome_iff_exists.mp
    (query_global_transformF_isSome ctx d hac fuel e (hfuel e he))
  have heq := queryGTF_eq_specGlobalF ctx hchain fuel e (hq e he).1
  exact ⟨m, heq.symm.trans hm, hres e he m hm⟩

/-- The scenario of the spec's transform-composition test: three entities in
a chain 2 → 1 → 0 (parents), each with both transform components, with local
translations (1,0,0), (0,1,0) and (0,0,1). -/
def ctxC1 : Context :=
  { Context.default with
    next_entity_id := 3,
    entities :=
      [(0, LOCAL_TRANSFORM ||| GLOBAL_TRANSFORM),
       (1, LOCAL_TRANSFORM ||| GLOBAL_TRANSFORM ||| PARENT),
       (2, LOCAL_TRANSFORM ||| GLOBAL_TRANSFORM ||| PARENT)],
    local_transform :=
      [(0, ⟨⟨1, 0, 0⟩, Quat.identity, Vec3.one⟩),
       (1, ⟨⟨0, 1, 0⟩, Quat.identity, Vec3.one⟩),
       (2, ⟨⟨0, 0, 1⟩, Quat.identity, Vec3.one⟩)],
    global_transform :=
      [(0, GlobalTransform.default), (1, GlobalTransform.default), (2, GlobalTransform.default)],
    parent := [(1, ⟨0⟩), (2, ⟨1⟩)] }

theorem update_global_transforms_correct_witness :
    (update_global_transforms_systemF 3 ctxC1).isSome = true := by
  obtain ⟨ctx', hgo, _⟩ := update_global_transforms_correct ctxC1 (fun e => e) 3
    (by decide) (by decide) (by decide) (by decide) (by decide)
  rw [hgo]
  rfl

section WellFormedness

variable {α : Type}

/-- All keys of an association list lie below the allocator's next id. -/
def keysBelow (n : Nat) (s : List (EntityId × α)) : Prop := ∀ p ∈ s, p.1 < n

theorem lookup_alSet_isSome (e x : EntityId) (v : α) (s : List (EntityId × α)) :
    (List.lookup x (alSet e v s)).isSome = (List.lookup x s).isSome := by
  rw [lookup_alSet]
  by_cases hx : x = e
  · subst hx
    rw [if_pos rfl]
    cases List.lookup x s <;> rfl
  · rw [if_neg hx]

theorem alErase_sublist (e : EntityId) (s : List (EntityId × α)) :
    List.Sublist (alErase e s) s := by
  induction s with
  | nil => simp [alErase]
  | cons p t ih =>
    show List.Sublist (if p.1 = e then alErase e t else p :: alErase e t) (p :: t)
    split
    · exact ih.cons p
    · exact ih.cons₂ p

theorem keysBelow_alSet (n : Nat) (e : EntityId) (v : α) (s : List (EntityId × α))
    (h : keysBelow n s) : keysBelow n (alSet e v s) := by
  intro p hp
  have hmem : p.1 ∈ (alSet e v s).map Prod.fst := List.mem_map.mpr ⟨p, hp, rfl⟩
  rw [map_fst_alSet] at hmem
  obtain ⟨q, hq, hq1⟩ := List.mem_map.mp hmem
  exact hq1 ▸ h q hq

theorem keysBelow_alErase (n : Nat) (e : EntityId) (s : List (EntityId × α))
    (h : keysBelow n s) : keysBelow n (alErase e s) :=
  fun p hp => h p ((alErase_sublist e s).mem hp)

theorem keysBelow_addStore (n : Nat) (e : EntityId) (m old : Mask) (k : Nat) (d : α)
    (s : List (EntityId × α)) (he : e < n) (h : keysBelow n s) :
    keysBelow n (addStore e m old k d s) := by
  intro p hp
  unfold addStore at hp
  split at hp
  · rcases List.mem_cons.mp hp with rfl | hp'
    · exact he
    · exact h p hp'
  · exact h p hp

theorem keysBelow_removeStore (n : Nat) (e : EntityId) (m : Mask) (k : Nat)
    (s : List (EntityId × α)) (h : keysBelow n s) : keysBelow n (removeStore e m k s) := by
  unfold removeStore
  split
  · exact keysBelow_alErase n e s h
  · exact h

theorem lookup_eq_none_of_keysBelow (n : Nat) (s : List (EntityId × α))
    (h : keysBelow n s) : List.lookup n s = none := by
  cases hl : List.lookup n s with
  | none => rfl
  | some v => exact absurd (h _ (mem_of_lookup_eq_some hl)) (lt_irrefl n)

theorem lookup_addStore (e x : EntityId) (m old : Mask) (k : Nat) (d : α)
    (s : List (EntityId × α)) :
    List.lookup x (addStore e m old k d s) =
      if x = e ∧ (m.testBit k && !(old.testBit k)) = true then some d
      else List.lookup x s := by
  unfold addStore
  by_cases hc : (m.testBit k && !(old.testBit k)) = true
  · rw [if_pos hc, lookup_cons]
    by_cases hx : x = e
    · rw [if_pos hx, if_pos ⟨hx, hc⟩]
    · rw [if_neg hx, if_neg (fun hh => hx hh.1)]
  · rw [if_neg hc, if_neg (fun hh => hc hh.2)]

theorem lookup_removeStore (e x : EntityId) (m : Mask) (k : Nat)
    (s : List (EntityId × α)) :
    List.lookup x (removeStore e m k s) =
      if x = e ∧ m.testBit k = true then none else List.lookup x s := by
  unfold removeStore
  by_cases hc : m.testBit k = true
  · rw [if_pos hc, lookup_alErase]
    by_cases hx : x = e
    · rw [if_pos hx, if_pos ⟨hx, hc⟩]
    · rw [if_neg hx, if_neg (fun hh => hx hh.1)]
  · rw [if_neg hc, if_neg (fun hh => hc hh.2)]

end WellFormedness

/-- Well-formedness of a world state: no duplicate rows in the mask table,
all keys below the allocator's next id, and mask/storage coherence. -/
structure CtxWF (ctx : Context) : Prop where
  nodup : (ctx.entities.map Prod.fst).Nodup
  bent : keysBelow ctx.next_entity_id ctx.entities
  bcam : keysBelow ctx.next_entity_id ctx.camera
  bgt : keysBelow ctx.next_entity_id ctx.global_transform
  blin : keysBelow ctx.next_entity_id ctx.lines
  blt : keysBelow ctx.next_entity_id ctx.local_transform
  bname : keysBelow ctx.next_entity_id ctx.name
  bpar : keysBelow ctx.next_entity_id ctx.parent
  bqu : keysBelow ctx.next_entity_id ctx.quads
  coh : Coherent ctx

section StoreLemmas

variable {α : Type}

theorem lookup_addStore_self_isSome (e : EntityId) (m old : Mask) (k : Nat) (d : α)
    (s : List (EntityId × α)) :
    (List.lookup e (addStore e m old k d s)).isSome =
      if (m.testBit k && !(old.testBit k)) = true then true
      else (List.lookup e s).isSome := by
  rw [lookup_addStore]
  by_cases hc : (m.testBit k && !(old.testBit k)) = true
  · rw [if_pos ⟨rfl, hc⟩, if_pos hc]
    rfl
  · rw [if_neg (fun hh => hc hh.2), if_neg hc]

theorem lookup_addStore_ne (e x : EntityId) (m old : Mask) (k : Nat) (d : α)
    (s : List (EntityId × α)) (hx : x ≠ e) :
    List.lookup x (addStore e m old k d s) = List.lookup x s := by
  rw [lookup_addStore, if_neg (fun hh => hx hh.1)]

theorem lookup_removeStore_self_isSome (e : EntityId) (m : Mask) (k : Nat)
    (s : List (EntityId × α)) :
    (List.lookup e (removeStore e m k s)).isSome =
      if m.testBit k = true then false else (List.lookup e s).isSome := by
  rw [lookup_removeStore]
  by_cases hc : m.testBit k = true
  · rw [if_pos ⟨rfl, hc⟩, if_pos hc]
    rfl
  · rw [if_neg (fun hh => hc hh.2), if_neg hc]

theorem lookup_removeStore_ne (e x : EntityId) (m : Mask) (k : Nat)
    (s : List (EntityId × α)) (hx : x ≠ e) :
    List.lookup x (removeStore e m k s) = List.lookup x s := by
  rw [lookup_removeStore, if_neg (fun hh => hx hh.1)]

theorem add_coherence_entry (b1 b2 L : Bool) (hco : b1 = L) :
    (b1 || b2) = (if (b2 && !b1) = true then true else L) := by
  subst hco
  cases b1 <;> cases b2 <;> simp

theorem remove_coherence_entry (b1 b2 L : Bool) (hco : b1 = L) :
    (b1.xor (b1 && b2)) = (if b2 = true then false else L) := by
  subst hco
  cases b1 <;> cases b2 <;> simp

end StoreLemmas

theorem wf_spawn (c : Context) (h : CtxWF c) : CtxWF (Context.spawn c).2 := by
  unfold Context.spawn
  refine ⟨?_, ?_, fun p hp => Nat.lt_succ_of_lt (h.bcam p hp),
    fun p hp => Nat.lt_succ_of_lt (h.bgt p hp), fun p hp => Nat.lt_succ_of_lt (h.blin p hp),
    fun p hp => Nat.lt_succ_of_lt (h.blt p hp), fun p hp => Nat.lt_succ_of_lt (h.bname p hp),
    fun p hp => Nat.lt_succ_of_lt (h.bpar p hp), fun p hp => Nat.lt_succ_of_lt (h.bqu p hp), ?_⟩
  · show ((c.entities ++ [(c.next_entity_id, (0 : Mask))]).map Prod.fst).Nodup
    rw [List.map_append]
    refine List.Nodup.append h.nodup (List.nodup_singleton _) ?_
    intro a ha hb
    simp only [List.map_cons, List.map_nil, List.mem_singleton] at hb
    obtain ⟨q, hq, hq1⟩ := List.mem_map.mp ha
    have h1 : q.1 < c.next_entity_id := h.bent q hq
    rw [hq1, hb] at h1
    exact absurd h1 (lt_irrefl _)
  · intro p hp
    rcases List.mem_append.mp hp with h1 | h1
    · exact Nat.lt_succ_of_lt (h.bent p h1)
    · simp only [List.mem_singleton] at h1
      subst h1
      exact Nat.lt_succ_self _
  · intro x mk hmk k hk
    rw [lookup_append] at hmk
    cases hl : List.lookup x c.entities with
    | some mk0 =>
      rw [hl] at hmk
      have hm0 : mk0 = mk := Option.some.inj hmk
      subst hm0
      have hc := h.coh x mk0 hl k hk
      exact hc
    | none =>
      rw [hl] at hmk
      rw [lookup_cons] at hmk
      by_cases hx : x = c.next_entity_id
      · rw [if_pos hx] at hmk
        have hm0 : mk = 0 := (Option.some.inj hmk).symm
        subst hm0
        subst hx
        rw [Nat.zero_testBit]
        interval_cases k
        · show false = (List.lookup c.next_entity_id c.camera).isSome
          rw [lookup_eq_none_of_keysBelow _ _ h.bcam]
          rfl
        · show false = (List.lookup c.next_entity_id c.global_transform).isSome
          rw [lookup_eq_none_of_keysBelow _ _ h.bgt]
          rfl
        · show false = (List.lookup c.next_entity_id c.lines).isSome
          rw [lookup_eq_none_of_keysBelow _ _ h.blin]
          rfl
        · show false = (List.lookup c.next_entity_id c.local_transform).isSome
          rw [lookup_eq_none_of_keysBelow _ _ h.blt]
          rfl
        · show false = (List.lookup c.next_entity_id c.name).isSome
          rw [lookup_eq_none_of_keysBelow _ _ h.bname]
          rfl
        · show false = (List.lookup c.next_entity_id c.parent).isSome
          rw [lookup_eq_none_of_keysBelow _ _ h.bpar]
          rfl
        · show false = (List.lookup c.next_entity_id c.quads).isSome
          rw [lookup_eq_none_of_keysBelow _ _ h.bqu]
          rfl
      · rw [if_neg hx] at hmk
        cases hmk

theorem wf_destroy (c : Context) (e : EntityId) (h : CtxWF c) :
    CtxWF (Context.destroy c e) := by
  unfold Context.destroy
  refine ⟨?_, keysBelow_alErase _ _ _ h.bent, keysBelow_alErase _ _ _ h.bcam,
    keysBelow_alErase _ _ _ h.bgt, keysBelow_alErase _ _ _ h.blin,
    keysBelow_alErase _ _ _ h.blt, keysBelow_alErase _ _ _ h.bname,
    keysBelow_alErase _ _ _ h.bpar, keysBelow_alErase _ _ _ h.bqu, ?_⟩
  · exact List.Nodup.sublist (List.Sublist.map Prod.fst (alErase_sublist e c.entities)) h.nodup
  · intro x mk hmk k hk
    rw [lookup_alErase] at hmk
    by_cases hx : x = e
    · rw [if_pos hx] at hmk
      cases hmk
    · rw [if_neg hx] at hmk
      have hc := h.coh x mk hmk k hk
      rw [hc]
      interval_cases k <;>
        simp [Context.storage_has_entry, lookup_alErase, hx]

theorem wf_add (c : Context) (e : EntityId) (m : Mask) (h : CtxWF c) :
    CtxWF (Context.add_components c e m) := by
  unfold Context.add_components
  cases hl : List.lookup e c.entities with
  | none => exact h
  | some old =>
    have he : e < c.next_entity_id := h.bent _ (mem_of_lookup_eq_some hl)
    refine ⟨?_, keysBelow_alSet _ _ _ _ h.bent,
      keysBelow_addStore _ _ _ _ _ _ _ he h.bcam,
      keysBelow_addStore _ _ _ _ _ _ _ he h.bgt,
      keysBelow_addStore _ _ _ _ _ _ _ he h.blin,
      keysBelow_addStore _ _ _ _ _ _ _ he h.blt,
      keysBelow_addStore _ _ _ _ _ _ _ he h.bname,
      keysBelow_addStore _ _ _ _ _ _ _ he h.bpar,
      keysBelow_addStore _ _ _ _ _ _ _ he h.bqu, ?_⟩
    · show ((alSet e (old ||| m) c.entities).map Prod.fst).Nodup
      rw [map_fst_alSet]
      exact h.nodup
    · intro x mk hmk k hk
      rw [lookup_alSet] at hmk
      by_cases hx : x = e
      · rw [if_pos hx] at hmk
        rw [hl] at hmk
        have hm0 : mk = old ||| m := (Option.some.inj hmk).symm
        subst hm0
        subst hx
        rw [Nat.testBit_lor]
        interval_cases k
        · refine (add_coherence_entry _ _ _ (h.coh x old hl 0 (by omega))).trans ?_
          exact (lookup_addStore_self_isSome x m old cameraBit Camera.default c.camera).symm
        · refine (add_coherence_entry _ _ _ (h.coh x old hl 1 (by omega))).trans ?_
          exact (lookup_addStore_self_isSome x m old globalTransformBit GlobalTransform.default c.global_transform).symm
        · refine (add_coherence_entry _ _ _ (h.coh x old hl 2 (by omega))).trans ?_
          exact (lookup_addStore_self_isSome x m old linesBit Lines.default c.lines).symm
        · refine (add_coherence_entry _ _ _ (h.coh x old hl 3 (by omega))).trans ?_
          exact (lookup_addStore_self_isSome x m old localTransformBit LocalTransform.default c.local_transform).symm
        · refine (add_coherence_entry _ _ _ (h.coh x old hl 4 (by omega))).trans ?_
          exact (lookup_addStore_self_isSome x m old nameBit Name.default c.name).symm
        · refine (add_coherence_entry _ _ _ (h.coh x old hl 5 (by omega))).trans ?_
          exact (lookup_addStore_self_isSome x m old parentBit Parent.default c.parent).symm
        · refine (add_coherence_entry _ _ _ (h.coh x old hl 6 (by omega))).trans ?_
          exact (lookup_addStore_self_isSome x m old quadsBit Quads.default c.quads).symm
      · rw [if_neg hx] at hmk
        have hc := h.coh x mk hmk k hk
        rw [hc]
        interval_cases k <;>
          simp [Context.storage_has_entry, lookup_addStore_ne _ _ _ _ _ _ _ hx]

theorem wf_remove (c : Context) (e : EntityId) (m : Mask) (h : CtxWF c) :
    CtxWF (Context.remove_components c e m) := by
  unfold Context.remove_components
  cases hl : List.lookup e c.entities with
  | none => exact h
  | some old =>
    refine ⟨?_, keysBelow_alSet _ _ _ _ h.bent,
      keysBelow_removeStore _ _ _ _ _ h.bcam,
      keysBelow_removeStore _ _ _ _ _ h.bgt,
      keysBelow_removeStore _ _ _ _ _ h.blin,
      keysBelow_removeStore _ _ _ _ _ h.blt,
      keysBelow_removeStore _ _ _ _ _ h.bname,
      keysBelow_removeStore _ _ _ _ _ h.bpar,
      keysBelow_removeStore _ _ _ _ _ h.bqu, ?_⟩
    · show ((alSet e (old ^^^ (old &&& m)) c.entities).map Prod.fst).Nodup
      rw [map_fst_alSet]
      exact h.nodup
    · intro x mk hmk k hk
      rw [lookup_alSet] at hmk
      by_cases hx : x = e
      · rw [if_pos hx] at hmk
        rw [hl] at hmk
        have hm0 : mk = old ^^^ (old &&& m) := (Option.some.inj hmk).symm
        subst hm0
        subst hx
        rw [Nat.testBit_xor, Nat.testBit_land]
        interval_cases k
        · refine (remove_coherence_entry _ _ _ (h.coh x old hl 0 (by omega))).trans ?_
          exact (lookup_removeStore_self_isSome x m cameraBit c.camera).symm
        · refine (remove_coherence_entry _ _ _ (h.coh x old hl 1 (by omega))).trans ?_
          exact (lookup_removeStore_self_isSome x m globalTransformBit c.global_transform).symm
        · refine (remove_coherence_entry _ _ _ (h.coh x old hl 2 (by omega))).trans ?_
          exact (lookup_removeStore_self_isSome x m linesBit c.lines).symm
        · refine (remove_coherence_entry _ _ _ (h.coh x old hl 3 (by omega))).trans ?_
          exact (lookup_removeStore_self_isSome x m localTransformBit c.local_transform).symm
        · refine (remove_coherence_entry _ _ _ (h.coh x old hl 4 (by omega))).trans ?_
          exact (lookup_removeStore_self_isSome x m nameBit c.name).symm
        · refine (remove_coherence_entry _ _ _ (h.coh x old hl 5 (by omega))).trans ?_
          exact (lookup_removeStore_self_isSome x m parentBit c.parent).symm
        · refine (remove_coherence_entry _ _ _ (h.coh x old hl 6 (by omega))).trans ?_
          exact (lookup_removeStore_self_isSome x m quadsBit c.quads).symm
      · rw [if_neg hx] at hmk
        have hc := h.coh x mk hmk k hk
        rw [hc]
        interval_cases k <;>
          simp [Context.storage_has_entry, lookup_removeStore_ne _ _ _ _ _ hx]

theorem wf_set_camera (c : Context) (e : EntityId) (v : Camera) (h : CtxWF c) :
    CtxWF (Context.set_camera c e v) := by
  unfold Context.set_camera
  split
  · refine ⟨h.nodup, h.bent, keysBelow_alSet _ _ _ _ h.bcam, h.bgt, h.blin, h.blt, h.bname, h.bpar, h.bqu, ?_⟩
    intro x mk hmk k hk
    rw [h.coh x mk hmk k hk]
    interval_cases k <;> simp only [Context.storage_has_entry, lookup_alSet_isSome]
  · exact h

theorem wf_set_global_transform (c : Context) (e : EntityId) (v : GlobalTransform) (h : CtxWF c) :
    CtxWF (Context.set_global_transform c e v) := by
  unfold Context.set_global_transform
  split
  · refine ⟨h.nodup, h.bent, h.bcam, keysBelow_alSet _ _ _ _ h.bgt, h.blin, h.blt, h.bname, h.bpar, h.bqu, ?_⟩
    intro x mk hmk k hk
    rw [h.coh x mk hmk k hk]
    interval_cases k <;> simp only [Context.storage_has_entry, lookup_alSet_isSome]
  · exact h

theorem wf_set_lines (c : Context) (e : EntityId) (v : Lines) (h : CtxWF c) :
    CtxWF (Context.set_lines c e v) := by
  unfold Context.set_lines
  split
  · refine ⟨h.nodup, h.bent, h.bcam, h.bgt, keysBelow_alSet _ _ _ _ h.blin, h.blt, h.bname, h.bpar, h.bqu, ?_⟩
    intro x mk hmk k hk
    rw [h.coh x mk hmk k hk]
    interval_cases k <;> simp only [Context.storage_has_entry, lookup_alSet_isSome]
  · exact h

theorem wf_set_local_transform (c : Context) (e : EntityId) (v : LocalTransform) (h : CtxWF c) :
    CtxWF (Context.set_local_transform c e v) := by
  unfold Context.set_local_transform
  split
  · refine ⟨h.nodup, h.bent, h.bcam, h.bgt, h.blin, keysBelow_alSet _ _ _ _ h.blt, h.bname, h.bpar, h.bqu, ?_⟩
    intro x mk hmk k hk
    rw [h.coh x mk hmk k hk]
    interval_cases k <;> simp only [Context.storage_has_entry, lookup_alSet_isSome]
  · exact h

theorem wf_set_name (c : Context) (e : EntityId) (v : Name) (h : CtxWF c) :
    CtxWF (Context.set_name c e v) := by
  unfold Context.set_name
  split
  · refine ⟨h.nodup, h.bent, h.bcam, h.bgt, h.blin, h.blt, keysBelow_alSet _ _ _ _ h.bname, h.bpar, h.bqu, ?_⟩
    intro x mk hmk k hk
    rw [h.coh x mk hmk k hk]
    interval_cases k <;> simp only [Context.storage_has_entry, lookup_alSet_isSome]
  · exact h

theorem wf_set_parent (c : Context) (e : EntityId) (v : Parent) (h : CtxWF c) :
    CtxWF (Context.set_parent c e v) := by
  unfold Context.set_parent
  split
  · refine ⟨h.nodup, h.bent, h.bcam, h.bgt, h.blin, h.blt, h.bname, keysBelow_alSet _ _ _ _ h.bpar, h.bqu, ?_⟩
    intro x mk hmk k hk
    rw [h.coh x mk hmk k hk]
    interval_cases k <;> simp only [Context.storage_has_entry, lookup_alSet_isSome]
  · exact h

theorem wf_set_quads (c : Context) (e : EntityId) (v : Quads) (h : CtxWF c) :
    CtxWF (Context.set_quads c e v) := by
  unfold Context.set_quads
  split
  · refine ⟨h.nodup, h.bent, h.bcam, h.bgt, h.blin, h.blt, h.bname, h.bpar, keysBelow_alSet _ _ _ _ h.bqu, ?_⟩
    intro x mk hmk k hk
    rw [h.coh x mk hmk k hk]
    interval_cases k <;> simp only [Context.storage_has_entry, lookup_alSet_isSome]
  · exact h

theorem ctxwf_default : CtxWF Context.default :=
  ⟨by simp [Context.default], fun p hp => absurd hp (List.not_mem_nil p),
   fun p hp => absurd hp (List.not_mem_nil p), fun p hp => absurd hp (List.not_mem_nil p),
   fun p hp => absurd hp (List.not_mem_nil p), fun p hp => absurd hp (List.not_mem_nil p),
   fun p hp => absurd hp (List.not_mem_nil p), fun p hp => absurd hp (List.not_mem_nil p),
   fun p hp => absurd hp (List.not_mem_nil p), fun x mk hmk k hk => nomatch hmk⟩

/-- C3: in every world state reachable by any sequence of the public core
operations (spawn, destroy, add/remove components, component mutation
through the typed mutable accessor; getters and queries do not change
state), the mask of each live entity has bit k set exactly when component
storage k holds an entry for it — each operation preserves the coherence
invariant, starting from the freshly constructed world. -/
theorem reachable_mask_storage_coherent (ctx : Context) (h : Reachable ctx) : Coherent ctx := by
  have hwf : CtxWF ctx := by
    induction h with
    | init => exact ctxwf_default
    | spawn c hc ih => exact wf_spawn c ih
    | destroy c e hc ih => exact wf_destroy c e ih
    | add_components c e m hc ih => exact wf_add c e m ih
    | remove_components c e m hc ih => exact wf_remove c e m ih
    | set_camera c e v hc ih => exact wf_set_camera c e v ih
    | set_global_transform c e v hc ih => exact wf_set_global_transform c e v ih
    | set_lines c e v hc ih => exact wf_set_lines c e v ih
    | set_local_transform c e v hc ih => exact wf_set_local_transform c e v ih
    | set_name c e v hc ih => exact wf_set_name c e v ih
    | set_parent c e v hc ih => exact wf_set_parent c e v ih
    | set_quads c e v hc ih => exact wf_set_quads c e v ih
  exact hwf.coh

theorem reachable_mask_storage_coherent_witness :
    Coherent (Context.add_components (Context.spawn Context.default).2 0 CAMERA) :=
  reachable_mask_storage_coherent _
    (Reachable.add_components _ 0 CAMERA (Reachable.spawn _ Reachable.init))

/-- Reachability along child edges: the entities below a root, the root
included — the set `query_descendents` is meant to collect. -/
inductive Reaches (ctx : Context) (root : EntityId) : EntityId → Prop
  | refl : Reaches ctx root root
  | step {x y : EntityId} :
      Reaches ctx root x → y ∈ query_children ctx x → Reaches ctx root y

theorem mem_query_children (ctx : Context) (a e : EntityId) :
    e ∈ query_children ctx a ↔ Context.get_parent ctx e = some (Parent.mk a) := by
  unfold query_children
  rw [List.mem_filter]
  constructor
  · rintro ⟨_, hp⟩
    cases hpe : Context.get_parent ctx e with
    | none => rw [hpe] at hp; cases hp
    | some pr =>
      rw [hpe] at hp
      cases pr with
      | mk p =>
        have hpa : p = a := by simpa using hp
        subst hpa
        rfl
  · intro hp
    refine ⟨?_, ?_⟩
    · unfold Context.get_parent at hp
      by_cases hb : Context.hasMaskBits ctx e PARENT = true
      · rw [if_pos hb] at hp
        unfold Context.hasMaskBits at hb
        cases hl : List.lookup e ctx.entities with
        | none => rw [hl] at hb; cases hb
        | some mk =>
          rw [hl] at hb
          have hmask : mk &&& PARENT = PARENT := by simpa using hb
          exact (mem_query_entities ctx PARENT e).mpr ⟨mk, mem_of_lookup_eq_some hl, hmask⟩
      · rw [if_neg hb] at hp
        cases hp
    · rw [hp]
      simp

theorem query_children_nodup (ctx : Context) (a : EntityId)
    (hnd : (ctx.entities.map Prod.fst).Nodup) : (query_children ctx a).Nodup := by
  unfold query_children
  apply List.Nodup.filter
  unfold Context.query_entities
  exact List.Nodup.sublist (List.Sublist.map Prod.fst (List.filter_sublist _)) hnd

theorem reaches_rank_le (ctx : Context) (d : EntityId → Nat)
    (hac : ∀ pr ∈ ctx.parent, d pr.2.parent < d pr.1) {a x : EntityId}
    (h : Reaches ctx a x) : d a ≤ d x := by
  induction h with
  | refl => exact le_refl _
  | @step u y h1 h2 ih =>
    have hp := (mem_query_children ctx u y).mp h2
    have hlt : d u < d y := by simpa using hac (y, ⟨u⟩) (get_parent_mem hp)
    omega

theorem reaches_inv (ctx : Context) (e x : EntityId) (h : Reaches ctx e x) :
    x = e ∨ ∃ c ∈ query_children ctx e, Reaches ctx c x := by
  induction h with
  | refl => exact Or.inl rfl
  | @step u y h1 h2 ih =>
    rcases ih with rfl | ⟨c, hc, hrc⟩
    · exact Or.inr ⟨y, h2, Reaches.refl⟩
    · exact Or.inr ⟨c, hc, Reaches.step hrc h2⟩

/-- Invariant of the depth-first stack loop of `query_descendents`: no
duplicates across collected and pending entities, everything seen is
reachable from the root, the parent of every seen non-root entity has
already been collected, and everything reachable is collected or reachable
from a pending entity. -/
structure DFSInv (ctx : Context) (a : EntityId) (acc stack : List EntityId) : Prop where
  nodup : (acc ++ stack).Nodup
  reach : ∀ x ∈ acc ++ stack, Reaches ctx a x
  par_done : ∀ x ∈ acc ++ stack,
    x = a ∨ ∃ p, Context.get_parent ctx x = some (Parent.mk p) ∧ p ∈ acc
  complete : ∀ x, Reaches ctx a x → x ∈ acc ∨ ∃ y ∈ stack, Reaches ctx y x

theorem dfsInv_step (ctx : Context) (a : EntityId) (d : EntityId → Nat)
    (hac : ∀ pr ∈ ctx.parent, d pr.2.parent < d pr.1)
    (hnd : (ctx.entities.map Prod.fst).Nodup)
    (e : EntityId) (acc rest : List EntityId)
    (inv : DFSInv ctx a acc (e :: rest)) :
    DFSInv ctx a (acc ++ [e]) ((query_children ctx e).reverse ++ rest) := by
  have hreach_e : Reaches ctx a e := inv.reach e (by simp)
  have hdisj : ∀ c ∈ query_children ctx e, c ∉ acc ++ e :: rest := by
    intro c hc hmem
    have hpc := (mem_query_children ctx e c).mp hc
    rcases inv.par_done c hmem with rfl | ⟨p, hp, hpacc⟩
    · have h1 : d e < d c := by simpa using hac (c, ⟨e⟩) (get_parent_mem hpc)
      have h2 : d c ≤ d e := reaches_rank_le ctx d hac hreach_e
      omega
    · have h2 : Parent.mk e = Parent.mk p := Option.some.inj (hpc.symm.trans hp)
      have hpe : e = p := congrArg Parent.parent h2
      rw [← hpe] at hpacc
      obtain ⟨hnacc, hncons, hdis⟩ := List.nodup_append.mp inv.nodup
      exact hdis hpacc (by simp)
  obtain ⟨hnacc, hncons, hdis⟩ := List.nodup_append.mp inv.nodup
  obtain ⟨henr, hnrest⟩ := List.nodup_cons.mp hncons
  have hch_nd : (query_children ctx e).Nodup := query_children_nodup ctx e hnd
  refine ⟨?_, ?_, ?_, ?_⟩
  · rw [List.nodup_append]
    refine ⟨?_, ?_, ?_⟩
    · rw [List.nodup_append]
      refine ⟨hnacc, List.nodup_singleton e, ?_⟩
      intro x hx hxe
      simp only [List.mem_singleton] at hxe
      subst hxe
      exact hdis hx (by simp)
    · rw [List.nodup_append]
      refine ⟨List.nodup_reverse.mpr hch_nd, hnrest, ?_⟩
      intro c hcrev hcrest
      rw [List.mem_reverse] at hcrev
      exact hdisj c hcrev (by simp [hcrest])
    · intro x hx hy
      rcases List.mem_append.mp hx with hx1 | hx1
      · rcases List.mem_append.mp hy with hy1 | hy1
        · rw [List.mem_reverse] at hy1
          exact hdisj x hy1 (List.mem_append_left _ hx1)
        · exact hdis hx1 (by simp [hy1])
      · simp only [List.mem_singleton] at hx1
        subst hx1
        rcases List.mem_append.mp hy with hy1 | hy1
        · rw [List.mem_reverse] at hy1
          exact hdisj x hy1 (by simp)
        · exact henr hy1
  · intro x hx
    rcases List.mem_append.mp hx with hx1 | hx1
    · rcases List.mem_append.mp hx1 with hx2 | hx2
      · exact inv.reach x (List.mem_append_left _ hx2)
      · simp only [List.mem_singleton] at hx2
        subst hx2
        exact hreach_e
    · rcases List.mem_append.mp hx1 with hx2 | hx2
      · rw [List.mem_reverse] at hx2
        exact Reaches.step hreach_e hx2
      · exact inv.reach x (by simp [hx2])
  · intro x hx
    rcases List.mem_append.mp hx with hx1 | hx1
    · rcases List.mem_append.mp hx1 with hx2 | hx2
      · rcases inv.par_done x (List.mem_append_left _ hx2) with h | ⟨p, hp1, hp2⟩
        · exact Or.inl h
        · exact Or.inr ⟨p, hp1, List.mem_append_left _ hp2⟩
      · simp only [List.mem_singleton] at hx2
        subst hx2
        rcases inv.par_done x (by simp) with h | ⟨p, hp1, hp2⟩
        · exact Or.inl h
        · exact Or.inr ⟨p, hp1, List.mem_append_left _ hp2⟩
    · rcases List.mem_append.mp hx1 with hx2 | hx2
      · rw [List.mem_reverse] at hx2
        exact Or.inr ⟨e, (mem_query_children ctx e x).mp hx2, by simp⟩
      · rcases inv.par_done x (by simp [hx2]) with h | ⟨p, hp1, hp2⟩
        · exact Or.inl h
        · exact Or.inr ⟨p, hp1, List.mem_append_left _ hp2⟩
  · intro x hx
    rcases inv.complete x hx with h | ⟨y, hy, hr⟩
    · exact Or.inl (List.mem_append_left _ h)
    · rcases List.mem_cons.mp hy with rfl | hy1
      · rcases reaches_inv ctx y x hr with rfl | ⟨c, hc, hrc⟩
        · exact Or.inl (by simp)
        · exact Or.inr ⟨c, List.mem_append_left _ (List.mem_reverse.mpr hc), hrc⟩
      · exact Or.inr ⟨y, List.mem_append_right _ hy1, hr⟩

theorem dfsInv_finish (ctx : Context) (a : EntityId) (acc : List EntityId)
    (inv : DFSInv ctx a acc []) : ∀ x, x ∈ acc ↔ Reaches ctx a x := by
  intro x
  constructor
  · intro hx
    exact inv.reach x (by simpa using hx)
  · intro hx
    rcases inv.complete x hx with h | ⟨y, hy, _⟩
    · exact h
    · exact absurd hy (List.not_mem_nil y)

theorem dfsInv_acc_subset (ctx : Context) (a : EntityId) (acc stack : List EntityId)
    (inv : DFSInv ctx a acc stack) : acc ⊆ a :: ctx.parent.map Prod.fst := by
  intro x hx
  rcases inv.par_done x (List.mem_append_left _ hx) with rfl | ⟨p, hp, _⟩
  · exact List.mem_cons_self _ _
  · exact List.mem_cons_of_mem _ (List.mem_map.mpr ⟨(x, ⟨p⟩), get_parent_mem hp, rfl⟩)

theorem dfs_loop_correct (ctx : Context) (a : EntityId) (d : EntityId → Nat)
    (hac : ∀ pr ∈ ctx.parent, d pr.2.parent < d pr.1)
    (hnd : (ctx.entities.map Prod.fst).Nodup) :
    ∀ (fuel : Nat) (acc stack : List EntityId),
      DFSInv ctx a acc stack →
      (a :: ctx.parent.map Prod.fst).length + 1 ≤ fuel + acc.length →
      ∃ l, queryDescLoop ctx fuel acc stack = some l ∧ ∀ x, (x ∈ l ↔ Reaches ctx a x) := by
  intro fuel
  induction fuel with
  | zero =>
    intro acc stack inv hlen
    cases stack with
    | nil => exact ⟨acc, rfl, dfsInv_finish ctx a acc inv⟩
    | cons e rest =>
      exfalso
      have hsub := dfsInv_acc_subset ctx a acc (e :: rest) inv
      have hnacc : acc.Nodup := (List.nodup_append.mp inv.nodup).1
      have hle := (hnacc.subperm hsub).length_le
      omega
  | succ f ih =>
    intro acc stack inv hlen
    cases stack with
    | nil => exact ⟨acc, rfl, dfsInv_finish ctx a acc inv⟩
    | cons e rest =>
      have inv' := dfsInv_step ctx a d hac hnd e acc rest inv
      have hlen' : (a :: ctx.parent.map Prod.fst).length + 1 ≤ f + (acc ++ [e]).length := by
        rw [List.length_append]
        simp only [List.length_singleton]
        omega
      obtain ⟨l, hl, hiff⟩ := ih (acc ++ [e]) ((query_children ctx e).reverse ++ rest) inv' hlen'
      exact ⟨l, hl, hiff⟩

/-- C6: `query_children(context, a)` holds, up to order, exactly the entities
whose `Parent` component's value is `a`; and on an acyclic parent graph
`query_descendents(context, a)` terminates and holds, up to order, exactly
the entities reachable from `a` along child edges, `a` itself included. -/
theorem children_and_descendents_exact (ctx : Context) (a : EntityId) (d : EntityId → Nat)
    (hac : ∀ pr ∈ ctx.parent, d pr.2.parent < d pr.1)
    (hnd : (ctx.entities.map Prod.fst).Nodup) :
    (∀ e, e ∈ query_children ctx a ↔ Context.get_parent ctx e = some (Parent.mk a)) ∧
    (∃ fuel l, query_descendentsF ctx fuel a = some l ∧
      ∀ e, (e ∈ l ↔ Reaches ctx a e)) := by
  refine ⟨fun e => mem_query_children ctx a e, ?_⟩
  have inv0 : DFSInv ctx a [] [a] := by
    refine ⟨by simp, ?_, ?_, ?_⟩
    · intro x hx
      simp only [List.nil_append, List.mem_singleton] at hx
      subst hx
      exact Reaches.refl
    · intro x hx
      simp only [List.nil_append, List.mem_singleton] at hx
      subst hx
      exact Or.inl rfl
    · intro x hx
      exact Or.inr ⟨a, by simp, hx⟩
  obtain ⟨l, hl, hiff⟩ := dfs_loop_correct ctx a d hac hnd
    ((a :: ctx.parent.map Prod.fst).length + 1) [] [a] inv0 (by simp)
  exact ⟨(a :: ctx.parent.map Prod.fst).length + 1, l, hl, hiff⟩

/-- Sample context for the children/descendants witness: entities 1 and 2
hold `Parent(0)`, entity 3 holds `Parent(1)`. -/
def ctxC6 : Context :=
  { Context.default with
    next_entity_id := 4,
    entities := [(0, 0), (1, PARENT), (2, PARENT), (3, PARENT)],
    parent := [(1, ⟨0⟩), (2, ⟨0⟩), (3, ⟨1⟩)] }

theorem children_and_descendents_exact_witness :
    (1 ∈ query_children ctxC6 0 ∧ 2 ∈ query_children ctxC6 0 ∧ 3 ∉ query_children ctxC6 0) ∧
    ∃ fuel l, query_descendentsF ctxC6 fuel 0 = some l ∧
      (0 ∈ l ∧ 1 ∈ l ∧ 2 ∈ l ∧ 3 ∈ l) := by
  have h := children_and_descendents_exact ctxC6 0 (fun e => e) (by decide) (by decide)
  refine ⟨⟨(h.1 1).mpr (by decide), (h.1 2).mpr (by decide),
    fun hm => absurd ((h.1 3).mp hm) (by decide)⟩, ?_⟩
  obtain ⟨fuel, l, hl, hiff⟩ := h.2
  refine ⟨fuel, l, hl, (hiff 0).mpr Reaches.refl,
    (hiff 1).mpr (@Reaches.step ctxC6 0 0 1 Reaches.refl (by decide)),
    (hiff 2).mpr (@Reaches.step ctxC6 0 0 2 Reaches.refl (by decide)),
    (hiff 3).mpr (@Reaches.step ctxC6 0 1 3
      (@Reaches.step ctxC6 0 0 1 Reaches.refl (by decide)) (by decide))⟩

end Abyssal
